import Mathlib

/-!
Wii7800: controller translation, light-gun mapping, difficulty switches, main loop.

A shallow embedding of `src/wii/wii_atari.cpp`.

* The file-scope globals of the translation unit become the fields of `Emu`.
* Macros, helpers and globals that the file uses but does not define
  (`wii_atari_input.h`, `wii_input.h`, the ProSystem headers) are taken as
  parameters: `Plat` holds the button masks, geometry and timing constants and
  the analog threshold tests; `Cart` holds the globals fixed by the loaded
  cartridge; `Core` is the emulation core (`prosystem_*`).
* Calls into the collaborators are recorded, in order, in `Emu.trace`.
* `float` quantities are rationals, and every `float` operation of the light-gun
  mapper is rounded to single precision by `f32` (nearest value with a 24-bit
  significand, ties to even), one rounding per C operation; the exponent range
  is not modelled, as the values computed from display dimensions and pointer
  positions stay far inside it.
  The analog stick readings are passed on unchanged and need no rounding.
* `int` quantities are unbounded integers (none of the modelled operations can
  overflow for the pointer ranges the hardware reports).
* The spin wait `while( !timer_IsTime() );` and the FPS bookkeeping depend on
  real time only and have no effect on the modelled state.
-/

namespace Wii7800

/-! ## Data model -/

/-- The control vector `unsigned char keyboard_data[19]`. -/
abbrev Kbd := Fin 19 → Nat

/-- The store `keyboard_data[i] = v`. -/
def Kbd.set (kb : Kbd) (i : Nat) (v : Nat) : Kbd :=
  fun j => if j.val = i then v else kb j

/-- Conversion of a C++ `bool` to the stored `unsigned char`. -/
def b2u (b : Bool) : Nat := if b then 1 else 0

/-- The C logical negation `!v` of a stored byte. -/
def lnot (v : Nat) : Nat := if v = 0 then 1 else 0

/-- Truth value of the C expression `v & m`. -/
def tst (v m : Nat) : Bool := decide ((v &&& m) ≠ 0)

/-- Conversion of a `float` value to `int` (truncation toward zero). -/
def cTrunc (q : ℚ) : Int := Int.tdiv q.num (q.den : Int)

/-- Rounding of a rational to the nearest integer, ties to the even one. -/
def roundEven (r : ℚ) : ℤ :=
  let f := ⌊r⌋
  if r - f < 1 / 2 then f
  else if 1 / 2 < r - f then f + 1
  else if f % 2 = 0 then f else f + 1

/-- Rounding of an exact result to `float`: the nearest binary value with a 24-bit
significand, ties to the even significand (IEEE 754 binary32, round to nearest).
A non-zero `q` with `2 ^ e ≤ |q| < 2 ^ (e + 1)` is rounded to a multiple of
`2 ^ (e - 23)`. -/
def f32 (q : ℚ) : ℚ :=
  if q = 0 then 0
  else
    let ulp : ℚ := (2 : ℚ) ^ (Int.log 2 |q| - 23)
    if 0 < q then (roundEven (q / ulp) : ℚ) * ulp
    else -((roundEven (-q / ulp) : ℚ) * ulp)

/-- The television standard of the cartridge (`cartridge_region`). -/
inductive Region where
  | NTSC
  | PAL
  deriving DecidableEq, Repr

/-- Calls into the collaborators, in the order they are made. -/
inductive Event where
  | scanPads
  | executeFrame
  | timerReset
  | pause (p : Bool)
  | crosshairs (x y : Int) (erase : Bool)
  | putImage
  | syncVideo
  | flip
  | soundStore
  | saveHighScoreSram
  deriving DecidableEq, Repr

/-- What the input libraries report for one controller port in one frame. -/
structure Pad where
  /-- The value of `WPAD_ButtonsDown( joyIndex )`. -/
  down : Nat
  /-- The value of `WPAD_ButtonsHeld( joyIndex )`. -/
  held : Nat
  /-- The value of `PAD_ButtonsDown( joyIndex )`. -/
  gcDown : Nat
  /-- The value of `PAD_ButtonsHeld( joyIndex )`. -/
  gcHeld : Nat
  /-- Whether `exp.type == WPAD_EXP_CLASSIC`. -/
  expClassic : Bool
  /-- The value of `wii_exp_analog_val( &exp, TRUE, FALSE )`. -/
  expX : ℚ
  /-- The value of `wii_exp_analog_val( &exp, FALSE, FALSE )`. -/
  expY : ℚ
  /-- The value of `wii_exp_analog_val( &exp, TRUE, TRUE )`. -/
  expRjsX : ℚ
  /-- The value of `wii_exp_analog_val( &exp, FALSE, TRUE )`. -/
  expRjsY : ℚ
  /-- The value of `PAD_StickX( joyIndex )`. -/
  gcX : Int
  /-- The value of `PAD_StickY( joyIndex )`. -/
  gcY : Int
  /-- The value of `PAD_SubStickX( joyIndex )`. -/
  gcSubX : Int
  /-- The value of `PAD_SubStickY( joyIndex )`. -/
  gcSubY : Int

/-- Everything the host reports when the devices are polled for one frame. -/
structure FrameInput where
  /-- The controller state per port index. -/
  pad : Nat → Pad
  /-- The field `ir.valid` of `WPAD_IR`. -/
  irValid : Bool
  /-- The field `ir.x`, as stored into an `int`. -/
  irX : Int
  /-- The field `ir.y`, as stored into an `int`. -/
  irY : Int
  /-- The global `wii_hw_button`. -/
  hwButton : Bool

/-- Macros and helper functions used by the file and defined in headers outside it. -/
structure Plat where
  WPAD_BUTTON_A : Nat
  WPAD_BUTTON_B : Nat
  WII_BUTTON_ATARI_RIGHT : Nat
  GC_BUTTON_ATARI_RIGHT : Nat
  WII_BUTTON_ATARI_LEFT : Nat
  WII_CLASSIC_ATARI_LEFT : Nat
  GC_BUTTON_ATARI_LEFT : Nat
  WII_BUTTON_ATARI_DOWN : Nat
  GC_BUTTON_ATARI_DOWN : Nat
  WII_BUTTON_ATARI_UP : Nat
  WII_CLASSIC_ATARI_UP : Nat
  GC_BUTTON_ATARI_UP : Nat
  WII_BUTTON_ATARI_FIRE : Nat
  WII_CLASSIC_ATARI_FIRE : Nat
  WII_NUNCHECK_ATARI_FIRE : Nat
  GC_BUTTON_ATARI_FIRE : Nat
  WII_BUTTON_ATARI_FIRE_2 : Nat
  WII_CLASSIC_ATARI_FIRE_2 : Nat
  WII_NUNCHECK_ATARI_FIRE_2 : Nat
  GC_BUTTON_ATARI_FIRE_2 : Nat
  WII_BUTTON_ATARI_RESET : Nat
  GC_BUTTON_ATARI_RESET : Nat
  WII_BUTTON_ATARI_SELECT : Nat
  GC_BUTTON_ATARI_SELECT : Nat
  WII_BUTTON_ATARI_PAUSE : Nat
  GC_BUTTON_ATARI_PAUSE : Nat
  WII_BUTTON_ATARI_DIFFICULTY_LEFT : Nat
  WII_BUTTON_ATARI_DIFFICULTY_LEFT_LG : Nat
  GC_BUTTON_ATARI_DIFFICULTY_LEFT : Nat
  WII_BUTTON_ATARI_DIFFICULTY_RIGHT : Nat
  WII_BUTTON_ATARI_DIFFICULTY_RIGHT_LG : Nat
  GC_BUTTON_ATARI_DIFFICULTY_RIGHT : Nat
  WII_BUTTON_HOME : Nat
  GC_BUTTON_HOME : Nat
  wii_analog_right : ℚ → Int → Bool
  wii_analog_left : ℚ → Int → Bool
  wii_analog_down : ℚ → Int → Bool
  wii_analog_up : ℚ → Int → Bool
  WII_WIDTH : Int
  WII_HEIGHT : Int
  HBLANK_CYCLES : Int
  CYCLES_PER_SCANLINE : Int
  NTSC_ATARI_BLIT_TOP_Y : Int
  PAL_ATARI_BLIT_TOP_Y : Int
  NTSC_ATARI_HEIGHT : Int
  PAL_ATARI_HEIGHT : Int

/-- The number of cycles per scanline that the 7800 checks for a hit. -/
def LG_CYCLES_PER_SCANLINE : Int := 318

/-- The number of cycles indented (after HBLANK) prior to checking for a hit. -/
def LG_CYCLES_INDENT : Int := 52

/-- The amount of time (in seconds) the difficulty switches are displayed after a change. -/
def DIFF_DISPLAY_LENGTH : Int := 5

/-- Globals of the emulation core that are fixed while a cartridge is loaded. -/
structure Cart where
  cartridge_region : Region
  cartridge_dualanalog : Bool
  /-- The value of `cartridge_controller[0] & CARTRIDGE_CONTROLLER_LIGHTGUN`. -/
  cartridge_lightgun : Bool
  prosystem_frequency : Nat
  maria_visibleArea_top : Int
  maria_displayArea_top : Int

/-- The emulation core, an external collaborator with its own state `κ`. -/
structure Core (κ : Type) where
  /-- The call `prosystem_ExecuteFrame( keyboard_data )`; the vector is read only. -/
  prosystem_ExecuteFrame : κ → Kbd → κ
  /-- The call `prosystem_Pause( pause )`. -/
  prosystem_Pause : κ → Bool → κ
  /-- The global `prosystem_paused`. -/
  prosystem_paused : κ → Bool
  /-- The global `prosystem_active`. -/
  prosystem_active : κ → Bool

/-- The file-scope state of `wii_atari.cpp` together with the core and the call trace. -/
structure Emu (κ : Type) where
  keyboard_data : Kbd
  left_difficulty_down : Bool
  right_difficulty_down : Bool
  diff_wait_count : Int
  diff_display_count : Int
  lightgun_scanline : Int
  lightgun_cycle : ℚ
  lightgun_enabled : Bool
  lightgun_first_fire : Bool
  wii_ir_x : Int
  wii_ir_y : Int
  wii_testframe : Bool
  wii_swap_buttons : Bool
  wii_diff_switch_enabled : Bool
  wii_lightgun_crosshair : Bool
  wii_dbg_scanlines : Int
  sound_muted : Bool
  core : κ
  /-- The number of calls of `wii_atari_update_keys` made so far. -/
  polls : Nat
  trace : List Event

variable {κ : Type}

/-! ## Pause and reset -/

/-- The function `wii_atari_pause` (lines 224-233). -/
def wii_atari_pause (K : Core κ) (pause : Bool) (s : Emu κ) : Emu κ :=
  let s1 : Emu κ :=
    { s with
      sound_muted := pause
      core := K.prosystem_Pause s.core pause
      trace := s.trace ++ [Event.pause pause] }
  if !pause then { s1 with trace := s1.trace ++ [Event.timerReset] } else s1

/-- The function `wii_reset_keyboard_data` (lines 238-252). The product
`prosystem_frequency * 0.75` is computed in `double`, where it is exact. -/
def wii_reset_keyboard_data (C : Cart) (s : Emu κ) : Emu κ :=
  { s with
    keyboard_data := Kbd.set (Kbd.set (fun _ => 0) 15 1) 16 0
    left_difficulty_down := false
    right_difficulty_down := true
    diff_wait_count := cTrunc ((C.prosystem_frequency : ℚ) * (3 / 4))
    diff_display_count := 0 }

/-! ## Controller translation -/

/-- The test `held & ( WPAD_BUTTON_B | WPAD_BUTTON_A )` of lines 512 and 521. -/
def triggerHeld (P : Plat) (held : Nat) : Bool :=
  tst held (P.WPAD_BUTTON_B ||| P.WPAD_BUTTON_A)

/-- Value of `lightgun_cycle` computed at lines 528 and 531-532, before the wrap
test: `xratio` is the `float` quotient of the two constants converted to `float`,
and the sum adds the `int` value `HBLANK_CYCLES + LG_CYCLES_INDENT`, converted to
`float`, to the `float` product. -/
def lgCycle0 (P : Plat) (x : Int) : ℚ :=
  let xratio : ℚ := f32 (f32 (LG_CYCLES_PER_SCANLINE : ℚ) / f32 (P.WII_WIDTH : ℚ))
  f32 (f32 ((P.HBLANK_CYCLES + LG_CYCLES_INDENT : Int) : ℚ) + f32 (f32 (x : ℚ) * xratio))

/-- Value of `lightgun_scanline` computed at lines 498-503 and 527-530, before the
wrap test: the `float` sum, each conversion and operation rounded, truncated to `int`. -/
def lgScanline0 (P : Plat) (C : Cart) (y : Int) : Int :=
  let yoffset : Int :=
    if C.cartridge_region = Region.NTSC then P.NTSC_ATARI_BLIT_TOP_Y
    else P.PAL_ATARI_BLIT_TOP_Y - 28
  let scanlines : Int :=
    if C.cartridge_region = Region.NTSC then P.NTSC_ATARI_HEIGHT else P.PAL_ATARI_HEIGHT
  let yratio : ℚ := f32 (f32 (scanlines : ℚ) / f32 (P.WII_HEIGHT : ℚ))
  cTrunc (f32 (f32 (f32 (f32 (y : ℚ) * yratio) +
    f32 ((C.maria_visibleArea_top - C.maria_displayArea_top + 1 : Int) : ℚ)) +
    f32 (yoffset : ℚ)))

/-- The light-gun branch of `wii_atari_update_joystick` (lines 496-538). -/
def lightgunBranch (P : Plat) (C : Cart) (held : Nat) (s : Emu κ) : Emu κ :=
  let scanlines : Int :=
    if C.cartridge_region = Region.NTSC then P.NTSC_ATARI_HEIGHT else P.PAL_ATARI_HEIGHT
  let s1 : Emu κ :=
    if s.lightgun_first_fire then
      { s with
        lightgun_first_fire := if !(triggerHeld P held) then false else s.lightgun_first_fire
        keyboard_data := s.keyboard_data.set 3 (b2u true) }
    else
      { s with keyboard_data := s.keyboard_data.set 3 (b2u (!(triggerHeld P held))) }
  let sl : Int := lgScanline0 P C s.wii_ir_y
  let cy : ℚ := lgCycle0 P s.wii_ir_x
  if cy > f32 (P.CYCLES_PER_SCANLINE : ℚ) then
    { s1 with
      wii_dbg_scanlines := scanlines
      lightgun_scanline := sl + 1
      lightgun_cycle := f32 (cy - f32 (P.CYCLES_PER_SCANLINE : ℚ)) }
  else
    { s1 with
      wii_dbg_scanlines := scanlines
      lightgun_scanline := sl
      lightgun_cycle := cy }

/-- The index offset of a port: `( joyIndex == 0 ? 0 : 6 )` (line 568). -/
def portOffset (joyIndex : Nat) : Nat := if joyIndex = 0 then 0 else 6

/-- The secondary stick of lines 550-566: `(expRjsX, expRjsY, gcRjsX, gcRjsY)`. -/
def dualAnalog (C : Cart) (joyIndex : Nat) (inp : FrameInput) : ℚ × ℚ × Int × Int :=
  if C.cartridge_dualanalog && joyIndex == 1 then
    let exp0 := inp.pad 0
    (if exp0.expClassic then exp0.expRjsX else 0,
     if exp0.expClassic then exp0.expRjsY else 0,
     exp0.gcSubX, exp0.gcSubY)
  else (0, 0, 0, 0)

/-- The value stored for Right at lines 571-573. -/
def rightBit (P : Plat) (C : Cart) (joyIndex : Nat) (inp : FrameInput) : Bool :=
  let p := inp.pad joyIndex
  let d := dualAnalog C joyIndex inp
  tst p.held P.WII_BUTTON_ATARI_RIGHT || tst p.gcHeld P.GC_BUTTON_ATARI_RIGHT ||
    P.wii_analog_right p.expX p.gcX || P.wii_analog_right d.1 d.2.2.1

/-- The value stored for Left at lines 575-578. -/
def leftBit (P : Plat) (C : Cart) (joyIndex : Nat) (inp : FrameInput) : Bool :=
  let p := inp.pad joyIndex
  let d := dualAnalog C joyIndex inp
  tst p.held (P.WII_BUTTON_ATARI_LEFT ||| (if p.expClassic then P.WII_CLASSIC_ATARI_LEFT else 0)) ||
    tst p.gcHeld P.GC_BUTTON_ATARI_LEFT ||
    P.wii_analog_left p.expX p.gcX || P.wii_analog_left d.1 d.2.2.1

/-- The value stored for Down at lines 580-582. -/
def downBit (P : Plat) (C : Cart) (joyIndex : Nat) (inp : FrameInput) : Bool :=
  let p := inp.pad joyIndex
  let d := dualAnalog C joyIndex inp
  tst p.held P.WII_BUTTON_ATARI_DOWN || tst p.gcHeld P.GC_BUTTON_ATARI_DOWN ||
    P.wii_analog_down p.expY p.gcY || P.wii_analog_down d.2.1 d.2.2.2

/-- The value stored for Up at lines 584-587. -/
def upBit (P : Plat) (C : Cart) (joyIndex : Nat) (inp : FrameInput) : Bool :=
  let p := inp.pad joyIndex
  let d := dualAnalog C joyIndex inp
  tst p.held (P.WII_BUTTON_ATARI_UP ||| (if p.expClassic then P.WII_CLASSIC_ATARI_UP else 0)) ||
    tst p.gcHeld P.GC_BUTTON_ATARI_UP ||
    P.wii_analog_up p.expY p.gcY || P.wii_analog_up d.2.1 d.2.2.2

/-- The value stored by the statement of lines 589-592 (the `*_ATARI_FIRE` masks). -/
def fireBit (P : Plat) (p : Pad) : Bool :=
  tst p.held (P.WII_BUTTON_ATARI_FIRE |||
      (if p.expClassic then P.WII_CLASSIC_ATARI_FIRE else P.WII_NUNCHECK_ATARI_FIRE)) ||
    tst p.gcHeld P.GC_BUTTON_ATARI_FIRE

/-- The value stored by the statement of lines 594-597 (the `*_ATARI_FIRE_2` masks). -/
def fire2Bit (P : Plat) (p : Pad) : Bool :=
  tst p.held (P.WII_BUTTON_ATARI_FIRE_2 |||
      (if p.expClassic then P.WII_CLASSIC_ATARI_FIRE_2 else P.WII_NUNCHECK_ATARI_FIRE_2)) ||
    tst p.gcHeld P.GC_BUTTON_ATARI_FIRE_2

/-- The joystick branch of `wii_atari_update_joystick` (lines 540-598). -/
def joystickBranch (P : Plat) (C : Cart) (joyIndex : Nat) (inp : FrameInput)
    (s : Emu κ) : Emu κ :=
  let p := inp.pad joyIndex
  let offset := portOffset joyIndex
  let k0 := s.keyboard_data.set (0 + offset) (b2u (rightBit P C joyIndex inp))
  let k1 := k0.set (1 + offset) (b2u (leftBit P C joyIndex inp))
  let k2 := k1.set (2 + offset) (b2u (downBit P C joyIndex inp))
  let k3 := k2.set (3 + offset) (b2u (upBit P C joyIndex inp))
  let k4 := k3.set (if s.wii_swap_buttons then 4 + offset else 5 + offset) (b2u (fireBit P p))
  let k5 := k4.set (if s.wii_swap_buttons then 5 + offset else 4 + offset) (b2u (fire2Bit P p))
  { s with keyboard_data := k5 }

/-- The raw trigger of the left difficulty switch (lines 613-615). -/
def leftDiffTrigger (P : Plat) (lightgun : Bool) (p : Pad) : Bool :=
  tst p.gcDown P.GC_BUTTON_ATARI_DIFFICULTY_LEFT ||
    ((!lightgun && tst p.down P.WII_BUTTON_ATARI_DIFFICULTY_LEFT) ||
     (lightgun && tst p.down P.WII_BUTTON_ATARI_DIFFICULTY_LEFT_LG))

/-- The raw trigger of the right difficulty switch (lines 630-632). -/
def rightDiffTrigger (P : Plat) (lightgun : Bool) (p : Pad) : Bool :=
  tst p.gcDown P.GC_BUTTON_ATARI_DIFFICULTY_RIGHT ||
    ((!lightgun && tst p.down P.WII_BUTTON_ATARI_DIFFICULTY_RIGHT) ||
     (lightgun && tst p.down P.WII_BUTTON_ATARI_DIFFICULTY_RIGHT_LG))

/-- The left difficulty switch (lines 611-627). -/
def leftDifficulty (P : Plat) (C : Cart) (lightgun : Bool) (p : Pad) (s : Emu κ) : Emu κ :=
  if decide (s.diff_wait_count = 0) && leftDiffTrigger P lightgun p then
    if !s.left_difficulty_down then
      { s with
        keyboard_data := s.keyboard_data.set 15 (lnot (s.keyboard_data 15))
        left_difficulty_down := true
        diff_display_count := (C.prosystem_frequency : Int) * DIFF_DISPLAY_LENGTH }
    else s
  else { s with left_difficulty_down := false }

/-- The right difficulty switch (lines 628-644). -/
def rightDifficulty (P : Plat) (C : Cart) (lightgun : Bool) (p : Pad) (s : Emu κ) : Emu κ :=
  if decide (s.diff_wait_count = 0) && rightDiffTrigger P lightgun p then
    if !s.right_difficulty_down then
      { s with
        keyboard_data := s.keyboard_data.set 16 (lnot (s.keyboard_data 16))
        right_difficulty_down := true
        diff_display_count := (C.prosystem_frequency : Int) * DIFF_DISPLAY_LENGTH }
    else s
  else { s with right_difficulty_down := false }

/-- The stores to the Reset, Select and Pause slots (lines 602-607). -/
def consoleButtons (P : Plat) (p : Pad) (s : Emu κ) : Emu κ :=
  let k12 := s.keyboard_data.set 12
    (b2u (tst p.held P.WII_BUTTON_ATARI_RESET || tst p.gcHeld P.GC_BUTTON_ATARI_RESET))
  let k13 := k12.set 13
    (b2u (tst p.held P.WII_BUTTON_ATARI_SELECT || tst p.gcHeld P.GC_BUTTON_ATARI_SELECT))
  let k14 := k13.set 14
    (b2u (tst p.held P.WII_BUTTON_ATARI_PAUSE || tst p.gcHeld P.GC_BUTTON_ATARI_PAUSE))
  { s with keyboard_data := k14 }

/-- The console part of `wii_atari_update_joystick`, run for port 0 only (lines 600-651). -/
def consoleBranch (P : Plat) (C : Cart) (K : Core κ) (lightgun : Bool) (inp : FrameInput)
    (s : Emu κ) : Emu κ :=
  let p := inp.pad 0
  let s1 : Emu κ := consoleButtons P p s
  let s2 : Emu κ :=
    if s1.wii_diff_switch_enabled then
      rightDifficulty P C lightgun p (leftDifficulty P C lightgun p s1)
    else s1
  if tst p.down P.WII_BUTTON_HOME || tst p.gcDown P.GC_BUTTON_HOME || inp.hwButton then
    wii_atari_pause K true s2
  else s2

/-- The function `wii_atari_update_joystick` (lines 483-652). -/
def wii_atari_update_joystick (P : Plat) (C : Cart) (K : Core κ) (joyIndex : Nat)
    (inp : FrameInput) (s : Emu κ) : Emu κ :=
  let lightgun : Bool := s.lightgun_enabled && joyIndex == 0
  let s1 : Emu κ :=
    if lightgun then lightgunBranch P C (inp.pad joyIndex).held s
    else joystickBranch P C joyIndex inp s
  if joyIndex = 0 then consoleBranch P C K lightgun inp s1 else s1

/-- The function `wii_atari_update_wiimote_ir` (lines 452-470). -/
def wii_atari_update_wiimote_ir (inp : FrameInput) (s : Emu κ) : Emu κ :=
  if inp.irValid then { s with wii_ir_x := inp.irX, wii_ir_y := inp.irY }
  else { s with wii_ir_x := -100, wii_ir_y := -100 }

/-- The function `wii_atari_update_keys` (lines 659-670). -/
def wii_atari_update_keys (P : Plat) (C : Cart) (K : Core κ) (inp : FrameInput)
    (s : Emu κ) : Emu κ :=
  let s0 : Emu κ := { s with polls := s.polls + 1, trace := s.trace ++ [Event.scanPads] }
  let s1 : Emu κ := if s0.lightgun_enabled then wii_atari_update_wiimote_ir inp s0 else s0
  wii_atari_update_joystick P C K 1 inp (wii_atari_update_joystick P C K 0 inp s1)

/-! ## Presentation and the main loop -/

/-- The function `wii_atari_display_crosshairs` (lines 421-447): nothing is drawn
for a negative coordinate, otherwise the drawing is recorded. -/
def wii_atari_display_crosshairs (x y : Int) (erase : Bool) (s : Emu κ) : Emu κ :=
  if decide (x < 0) || decide (y < 0) then s
  else { s with trace := s.trace ++ [Event.crosshairs x y erase] }

/-- The function `wii_atari_refresh_screen` (lines 379-412). -/
def wii_atari_refresh_screen (sync : Bool) (testframes : Int) (s : Emu κ) : Emu κ :=
  let s1 : Emu κ :=
    if s.diff_wait_count > 0 then { s with diff_wait_count := s.diff_wait_count - 1 } else s
  let drawcrosshair : Bool := s1.lightgun_enabled && s1.wii_lightgun_crosshair
  let s2 : Emu κ :=
    if drawcrosshair then wii_atari_display_crosshairs s1.wii_ir_x s1.wii_ir_y false s1 else s1
  let s3 : Emu κ := { s2 with trace := s2.trace ++ [Event.putImage] }
  let s4 : Emu κ :=
    if drawcrosshair then wii_atari_display_crosshairs s3.wii_ir_x s3.wii_ir_y true s3 else s3
  let s5 : Emu κ := if sync then { s4 with trace := s4.trace ++ [Event.syncVideo] } else s4
  if testframes < 0 then { s5 with trace := s5.trace ++ [Event.flip] } else s5

/-- The `while( !prosystem_paused )` loop of `wii_atari_main_loop` (lines 774-814),
with the call to `cartridge_SaveHighScoreSram` that follows it. One unit of fuel is
spent per evaluation of the loop condition; `none` means the fuel ran out. The
`k`-th poll of the devices reads `inp k`. -/
def mainLoopBody (P : Plat) (C : Cart) (K : Core κ) (inp : Nat → FrameInput) :
    Nat → Int → Emu κ → Option (Emu κ)
  | 0, _, _ => none
  | fuel + 1, testframes, s =>
    if K.prosystem_paused s.core then
      some { s with trace := s.trace ++ [Event.saveHighScoreSram] }
    else
      let s1 : Emu κ :=
        if testframes < 0 then
          { wii_atari_update_keys P C K (inp s.polls) s with wii_testframe := false }
        else { s with wii_testframe := true }
      if K.prosystem_active s1.core && !K.prosystem_paused s1.core then
        let s2 : Emu κ :=
          { s1 with
            core := K.prosystem_ExecuteFrame s1.core s1.keyboard_data
            trace := s1.trace ++ [Event.executeFrame] }
        let s3 : Emu κ := wii_atari_refresh_screen true testframes s2
        let s4 : Emu κ :=
          if testframes < 0 then { s3 with trace := s3.trace ++ [Event.soundStore] } else s3
        if testframes > 0 then mainLoopBody P C K inp fuel (testframes - 1) s4
        else if testframes = 0 then some s4
        else mainLoopBody P C K inp fuel testframes s4
      else mainLoopBody P C K inp fuel testframes s1

/-- The function `wii_atari_main_loop` (lines 753-815). -/
def wii_atari_main_loop (P : Plat) (C : Cart) (K : Core κ) (inp : Nat → FrameInput)
    (fuel : Nat) (testframes : Int) (s : Emu κ) : Option (Emu κ) :=
  let s0 : Emu κ :=
    { s with
      lightgun_first_fire := true
      lightgun_enabled := C.cartridge_lightgun
      trace := s.trace ++ [Event.timerReset] }
  mainLoopBody P C K inp fuel testframes s0

/-! ## Sequences of calls -/

/-- Successive calls of `wii_atari_update_joystick( 0, keyboard_data )`, one per frame. -/
def runPort0 (P : Plat) (C : Cart) (K : Core κ) : List FrameInput → Emu κ → Emu κ
  | [], s => s
  | inp :: rest, s => runPort0 P C K rest (wii_atari_update_joystick P C K 0 inp s)

/-- The core state after `n` calls of `prosystem_ExecuteFrame` with the vector `kb`. -/
def coreAfter (K : Core κ) (kb : Kbd) : Nat → κ → κ
  | 0, k => k
  | n + 1, k => coreAfter K kb n (K.prosystem_ExecuteFrame k kb)

/-- The vector with the entries of slots `i` and `j` exchanged. -/
def Kbd.swapSlots (kb : Kbd) (i j : Fin 19) : Kbd :=
  fun n => if n = i then kb j else if n = j then kb i else kb n

/-- Two states agree on everything the console part of the port-0 call reads or
writes besides the raw input: slots 12-18, the two switch latches, the two timers
and the switch-enable option. -/
def sameConsole (s t : Emu κ) : Prop :=
  (∀ j : Fin 19, 12 ≤ j.val → s.keyboard_data j = t.keyboard_data j) ∧
  s.left_difficulty_down = t.left_difficulty_down ∧
  s.right_difficulty_down = t.right_difficulty_down ∧
  s.diff_wait_count = t.diff_wait_count ∧
  s.diff_display_count = t.diff_display_count ∧
  s.wii_diff_switch_enabled = t.wii_diff_switch_enabled

/-- The events that `wii_atari_refresh_screen` can record when it does not flip. -/
def Event.isVideo : Event → Bool
  | Event.crosshairs _ _ _ => true
  | Event.putImage => true
  | Event.syncVideo => true
  | _ => false

/-! ## A concrete host, used to evaluate the definitions -/

/-- A sample host: single-bit button masks, threshold tests for the sticks and the
geometry of a 640x480 display. -/
def demoPlat : Plat where
  WPAD_BUTTON_A := 0x0008
  WPAD_BUTTON_B := 0x0004
  WII_BUTTON_ATARI_RIGHT := 0x0200
  GC_BUTTON_ATARI_RIGHT := 0x0002
  WII_BUTTON_ATARI_LEFT := 0x0100
  WII_CLASSIC_ATARI_LEFT := 0x40000000
  GC_BUTTON_ATARI_LEFT := 0x0001
  WII_BUTTON_ATARI_DOWN := 0x0400
  GC_BUTTON_ATARI_DOWN := 0x0004
  WII_BUTTON_ATARI_UP := 0x0800
  WII_CLASSIC_ATARI_UP := 0x00010000
  GC_BUTTON_ATARI_UP := 0x0008
  WII_BUTTON_ATARI_FIRE := 0x0001
  WII_CLASSIC_ATARI_FIRE := 0x00100000
  WII_NUNCHECK_ATARI_FIRE := 0x00020000
  GC_BUTTON_ATARI_FIRE := 0x0100
  WII_BUTTON_ATARI_FIRE_2 := 0x0002
  WII_CLASSIC_ATARI_FIRE_2 := 0x00400000
  WII_NUNCHECK_ATARI_FIRE_2 := 0x00010000
  GC_BUTTON_ATARI_FIRE_2 := 0x0200
  WII_BUTTON_ATARI_RESET := 0x00080000
  GC_BUTTON_ATARI_RESET := 0x0010
  WII_BUTTON_ATARI_SELECT := 0x0010
  GC_BUTTON_ATARI_SELECT := 0x0040
  WII_BUTTON_ATARI_PAUSE := 0x1000
  GC_BUTTON_ATARI_PAUSE := 0x1000
  WII_BUTTON_ATARI_DIFFICULTY_LEFT := 0x20000000
  WII_BUTTON_ATARI_DIFFICULTY_LEFT_LG := 0x0002
  GC_BUTTON_ATARI_DIFFICULTY_LEFT := 0x0400
  WII_BUTTON_ATARI_DIFFICULTY_RIGHT := 0x02000000
  WII_BUTTON_ATARI_DIFFICULTY_RIGHT_LG := 0x0001
  GC_BUTTON_ATARI_DIFFICULTY_RIGHT := 0x0800
  WII_BUTTON_HOME := 0x0080
  GC_BUTTON_HOME := 0x0020
  wii_analog_right := fun e g => decide (60 < e) || decide (46 < g)
  wii_analog_left := fun e g => decide (e < -60) || decide (g < -46)
  wii_analog_down := fun e g => decide (e < -70) || decide (g < -54)
  wii_analog_up := fun e g => decide (70 < e) || decide (54 < g)
  WII_WIDTH := 640
  WII_HEIGHT := 480
  HBLANK_CYCLES := 136
  CYCLES_PER_SCANLINE := 454
  NTSC_ATARI_BLIT_TOP_Y := 2
  PAL_ATARI_BLIT_TOP_Y := 26
  NTSC_ATARI_HEIGHT := 240
  PAL_ATARI_HEIGHT := 240

/-- An NTSC light-gun cartridge. -/
def demoCart : Cart where
  cartridge_region := Region.NTSC
  cartridge_dualanalog := false
  cartridge_lightgun := true
  prosystem_frequency := 60
  maria_visibleArea_top := 26
  maria_displayArea_top := 16

/-- A core whose state is the pair of its flags `(paused, active)`; executing a
frame leaves both alone, and a pause request is honoured while the core is active. -/
def demoCore : Core (Bool × Bool) where
  prosystem_ExecuteFrame := fun k _ => k
  prosystem_Pause := fun k p => if k.2 then (p, k.2) else k
  prosystem_paused := fun k => k.1
  prosystem_active := fun k => k.2

/-- A controller with nothing pressed and the sticks centred. -/
def idlePad : Pad where
  down := 0
  held := 0
  gcDown := 0
  gcHeld := 0
  expClassic := false
  expX := 0
  expY := 0
  expRjsX := 0
  expRjsY := 0
  gcX := 0
  gcY := 0
  gcSubX := 0
  gcSubY := 0

/-- A frame in which port 0 reports `p`, port 1 is idle and the pointer is at `(x, y)`. -/
def frameOf (p : Pad) (valid : Bool) (x y : Int) : FrameInput where
  pad := fun i => if i = 0 then p else idlePad
  irValid := valid
  irX := x
  irY := y
  hwButton := false

/-- The state after a cartridge has been loaded at 60 Hz: the globals at their
initial values of lines 55-115, except for the two options given as arguments, and
the values stored by `wii_reset_keyboard_data` (slot 15 set, the right latch set,
45 frames of settle time); the core is running. -/
def demoEmu (lightgun : Bool) (diffSwitches : Bool) : Emu (Bool × Bool) where
  keyboard_data := fun j => if j.val = 15 then 1 else 0
  left_difficulty_down := false
  right_difficulty_down := true
  diff_wait_count := 45
  diff_display_count := 0
  lightgun_scanline := 0
  lightgun_cycle := 0
  lightgun_enabled := lightgun
  lightgun_first_fire := true
  wii_ir_x := -100
  wii_ir_y := -100
  wii_testframe := false
  wii_swap_buttons := false
  wii_diff_switch_enabled := diffSwitches
  wii_lightgun_crosshair := true
  wii_dbg_scanlines := 0
  sound_muted := false
  core := (false, true)
  polls := 0
  trace := []

/-- A port-0 controller on which both difficulty buttons of the GameCube pad have
just gone down. -/
def bothSwitchesPad : Pad := { idlePad with gcDown := 0x0C00 }

/-- A loaded cartridge with the difficulty switches enabled, the settle timer
expired and neither switch latched as held. -/
def armedEmu : Emu (Bool × Bool) :=
  { demoEmu false true with diff_wait_count := 0, right_difficulty_down := false }

/-- A port-0 Wii remote on which only the first fire button (button 2, the whole
of `WII_BUTTON_ATARI_FIRE` in `demoPlat`) is held. -/
def firePad : Pad := { idlePad with held := 0x0001 }

/-- A port-0 Wii remote with the A button held. -/
def triggerPad : Pad := { idlePad with held := 0x0008 }

/-- A loaded light-gun cartridge with the pointer stored at `(536, 100)`, the first
column for which the cycle exceeds one scanline. -/
def edgeEmu : Emu (Bool × Bool) :=
  { demoEmu true false with wii_ir_x := 536, wii_ir_y := 100 }

/-- A loaded light-gun cartridge with the pointer stored at `(600, 100)`. -/
def aimedEmu : Emu (Bool × Bool) :=
  { demoEmu true false with wii_ir_x := 600, wii_ir_y := 100 }

/-- An NTSC cartridge played with joysticks. -/
def plainCart : Cart := { demoCart with cartridge_lightgun := false }

/-- A port-0 Wii remote on which the Home button has just gone down. -/
def homePad : Pad := { idlePad with down := 0x0080 }

/-- An interactive session in which Home is pressed at the third poll. -/
def homeAtThirdPoll : Nat → FrameInput :=
  fun k => frameOf (if k = 2 then homePad else idlePad) false 0 0

/-- The two ways in which a run of the loop that started in `s` can have ended in
`s1`: through the loop condition, in which case `cartridge_SaveHighScoreSram` is the
last call recorded and the only call of it; or through the `return` of line 808,
which needs `0 ≤ testframes`, follows an emulation step and records no such call. -/
def exitShape (K : Core κ) (testframes : Int) (s s1 : Emu κ) : Prop :=
  (∃ pre, s1.trace = s.trace ++ pre ++ [Event.saveHighScoreSram] ∧
    Event.saveHighScoreSram ∉ pre ∧ K.prosystem_paused s1.core = true) ∨
  (0 ≤ testframes ∧ ∃ pre, s1.trace = s.trace ++ pre ∧
    Event.saveHighScoreSram ∉ pre ∧ Event.executeFrame ∈ pre)

/-! ## Basic facts -/

section Lemmas

variable (P : Plat) (C : Cart) (K : Core κ)

theorem Kbd.set_apply (kb : Kbd) (i v : Nat) (j : Fin 19) :
    Kbd.set kb i v j = if j.val = i then v else kb j := rfl

theorem display_crosshairs_fields (x y : Int) (erase : Bool) (s : Emu κ) :
    (wii_atari_display_crosshairs x y erase s).keyboard_data = s.keyboard_data ∧
    (wii_atari_display_crosshairs x y erase s).core = s.core ∧
    (wii_atari_display_crosshairs x y erase s).polls = s.polls ∧
    (wii_atari_display_crosshairs x y erase s).lightgun_enabled = s.lightgun_enabled ∧
    (wii_atari_display_crosshairs x y erase s).wii_lightgun_crosshair = s.wii_lightgun_crosshair ∧
    ∃ evs, (wii_atari_display_crosshairs x y erase s).trace = s.trace ++ evs ∧
      ∀ e ∈ evs, e.isVideo = true := by
  unfold wii_atari_display_crosshairs
  split
  · exact ⟨rfl, rfl, rfl, rfl, rfl, [], by simp, by simp⟩
  · exact ⟨rfl, rfl, rfl, rfl, rfl, [Event.crosshairs x y erase], rfl, by simp [Event.isVideo]⟩

/-- Without a flip, `wii_atari_refresh_screen` touches neither the control vector nor
the core, and records video events only. -/
theorem refresh_screen_fast (sync : Bool) (testframes : Int) (h : 0 ≤ testframes)
    (s : Emu κ) :
    (wii_atari_refresh_screen sync testframes s).keyboard_data = s.keyboard_data ∧
    (wii_atari_refresh_screen sync testframes s).core = s.core ∧
    (wii_atari_refresh_screen sync testframes s).polls = s.polls ∧
    ∃ evs, (wii_atari_refresh_screen sync testframes s).trace = s.trace ++ evs ∧
      ∀ e ∈ evs, e.isVideo = true := by
  have hneg : ¬ testframes < 0 := not_lt.mpr h
  unfold wii_atari_refresh_screen
  simp only [hneg, if_false]
  set s1 : Emu κ :=
    if s.diff_wait_count > 0 then { s with diff_wait_count := s.diff_wait_count - 1 } else s
    with hs1
  have h1 : s1.keyboard_data = s.keyboard_data ∧ s1.core = s.core ∧ s1.polls = s.polls ∧
      s1.trace = s.trace := by
    rw [hs1]; split <;> exact ⟨rfl, rfl, rfl, rfl⟩
  obtain ⟨h1k, h1c, h1p, h1t⟩ := h1
  cases hd : (s1.lightgun_enabled && s1.wii_lightgun_crosshair)
  · cases sync
    · simp only [Bool.false_eq_true, if_false]
      exact ⟨h1k, h1c, h1p, [Event.putImage], by simp [h1t], by simp [Event.isVideo]⟩
    · simp only [Bool.false_eq_true, if_false, if_true]
      exact ⟨h1k, h1c, h1p, [Event.putImage, Event.syncVideo], by simp [h1t],
        by simp [Event.isVideo]⟩
  · simp only [if_true]
    obtain ⟨a1, a2, a3, _, _, e1, a4, a5⟩ :=
      display_crosshairs_fields s1.wii_ir_x s1.wii_ir_y false s1
    set s2 := wii_atari_display_crosshairs s1.wii_ir_x s1.wii_ir_y false s1 with hs2
    set s3 : Emu κ := { s2 with trace := s2.trace ++ [Event.putImage] } with hs3
    obtain ⟨b1, b2, b3, _, _, e2, b4, b5⟩ :=
      display_crosshairs_fields s3.wii_ir_x s3.wii_ir_y true s3
    set s4 := wii_atari_display_crosshairs s3.wii_ir_x s3.wii_ir_y true s3 with hs4
    have k4 : s4.keyboard_data = s.keyboard_data := by rw [b1, hs3]; simp only; rw [a1, h1k]
    have c4 : s4.core = s.core := by rw [b2, hs3]; simp only; rw [a2, h1c]
    have p4 : s4.polls = s.polls := by rw [b3, hs3]; simp only; rw [a3, h1p]
    have t4 : s4.trace = s.trace ++ (e1 ++ [Event.putImage] ++ e2) := by
      rw [b4, hs3]; simp only; rw [a4, h1t]; simp
    have v4 : ∀ e ∈ e1 ++ [Event.putImage] ++ e2, e.isVideo = true := by
      intro e he
      simp only [List.mem_append, List.mem_singleton] at he
      rcases he with (he | he) | he
      · exact a5 e he
      · subst he; rfl
      · exact b5 e he
    cases sync
    · simp only [Bool.false_eq_true, if_false]
      exact ⟨k4, c4, p4, _, t4, v4⟩
    · simp only [if_true]
      refine ⟨k4, c4, p4, e1 ++ [Event.putImage] ++ e2 ++ [Event.syncVideo], ?_, ?_⟩
      · simp [t4]
      · intro e he
        rw [List.mem_append] at he
        rcases he with he | he
        · exact v4 e he
        · simp only [List.mem_singleton] at he; subst he; rfl

/-- Fast-forward run of the loop: with `testframes = N ≥ 0`, a core that is active and
not paused before each of the `N + 1` frames, and at least `N + 1` units of fuel, the
loop returns after exactly `N + 1` calls of `prosystem_ExecuteFrame`, all with the
same control vector, and records nothing but those calls and video events. -/
theorem mainLoopBody_fast (inp : Nat → FrameInput) :
    ∀ (N extra : Nat) (s : Emu κ),
      (∀ i, i ≤ N →
        K.prosystem_paused (coreAfter K s.keyboard_data i s.core) = false ∧
        K.prosystem_active (coreAfter K s.keyboard_data i s.core) = true) →
      ∃ s1, mainLoopBody P C K inp (N + 1 + extra) (N : Int) s = some s1 ∧
        s1.keyboard_data = s.keyboard_data ∧
        s1.polls = s.polls ∧
        s1.core = coreAfter K s.keyboard_data (N + 1) s.core ∧
        ∃ evs, s1.trace = s.trace ++ evs ∧
          evs.count Event.executeFrame = N + 1 ∧
          ∀ e ∈ evs, e = Event.executeFrame ∨ e.isVideo = true := by
  intro N
  induction N with
  | zero =>
    intro extra s hrun
    obtain ⟨hp, ha⟩ := hrun 0 (le_refl 0)
    simp only [coreAfter] at hp ha
    set s2 : Emu κ :=
      { s with
        wii_testframe := true
        core := K.prosystem_ExecuteFrame s.core s.keyboard_data
        trace := s.trace ++ [Event.executeFrame] } with hs2
    obtain ⟨r1, r2, r3, evs, r4, r5⟩ := refresh_screen_fast true 0 (le_refl 0) s2
    refine ⟨wii_atari_refresh_screen true 0 s2, ?_, ?_, ?_, ?_, [Event.executeFrame] ++ evs,
      ?_, ?_, ?_⟩
    · have e : 0 + 1 + extra = extra + 1 := by omega
      rw [e]
      simp [mainLoopBody, hp, ha, hs2]
    · rw [r1]
    · rw [r3]
    · rw [r2]; rfl
    · rw [r4]; simp [hs2]
    · rw [List.count_append]
      have : evs.count Event.executeFrame = 0 := by
        rw [List.count_eq_zero]
        intro hmem
        have := r5 _ hmem
        simp [Event.isVideo] at this
      simp [this]
    · intro e he
      simp only [List.singleton_append, List.mem_cons] at he
      rcases he with he | he
      · exact Or.inl he
      · exact Or.inr (r5 e he)
  | succ n ih =>
    intro extra s hrun
    obtain ⟨hp, ha⟩ := hrun 0 (Nat.zero_le _)
    simp only [coreAfter] at hp ha
    set s2 : Emu κ :=
      { s with
        wii_testframe := true
        core := K.prosystem_ExecuteFrame s.core s.keyboard_data
        trace := s.trace ++ [Event.executeFrame] } with hs2
    have hpos : (0 : Int) ≤ ((n + 1 : Nat) : Int) := Int.natCast_nonneg _
    obtain ⟨r1, r2, r3, evs, r4, r5⟩ := refresh_screen_fast true ((n + 1 : Nat) : Int) hpos s2
    set s3 := wii_atari_refresh_screen true ((n + 1 : Nat) : Int) s2 with hs3
    have k3 : s3.keyboard_data = s.keyboard_data := by rw [r1]
    have c3 : s3.core = K.prosystem_ExecuteFrame s.core s.keyboard_data := by rw [r2]
    have hrun3 : ∀ i, i ≤ n →
        K.prosystem_paused (coreAfter K s3.keyboard_data i s3.core) = false ∧
        K.prosystem_active (coreAfter K s3.keyboard_data i s3.core) = true := by
      intro i hi
      have := hrun (i + 1) (by omega)
      rw [k3, c3]
      simpa only [coreAfter] using this
    obtain ⟨s1, q1, q2, q3, q4, evs2, q5, q6, q7⟩ := ih extra s3 hrun3
    refine ⟨s1, ?_, ?_, ?_, ?_, [Event.executeFrame] ++ evs ++ evs2, ?_, ?_, ?_⟩
    · have e : n + 1 + 1 + extra = (n + 1 + extra) + 1 := by omega
      rw [e]
      have hlt : ¬ (((n + 1 : Nat) : Int) < 0) := not_lt.mpr hpos
      have hgt : (0 : Int) < ((n + 1 : Nat) : Int) := by exact_mod_cast Nat.succ_pos n
      have hsub : ((n + 1 : Nat) : Int) - 1 = (n : Int) := by push_cast; ring
      rw [mainLoopBody]
      simp only [hp, hlt, if_false, ha, Bool.false_eq_true, Bool.not_false, Bool.and_self,
        if_true, gt_iff_lt, hgt, hsub]
      exact q1
    · rw [q2, k3]
    · rw [q3, r3]
    · rw [q4, k3, c3]; rfl
    · rw [q5, r4]; simp [hs2]
    · rw [List.count_append, List.count_append, q6]
      have : evs.count Event.executeFrame = 0 := by
        rw [List.count_eq_zero]
        intro hmem
        have := r5 _ hmem
        simp [Event.isVideo] at this
      simp [this]; omega
    · intro e he
      simp only [List.append_assoc, List.singleton_append, List.mem_cons, List.mem_append] at he
      rcases he with (he | he) | he
      · exact Or.inl he
      · exact Or.inr (r5 e he)
      · exact q7 e he

end Lemmas

section Frames

variable (P : Plat) (C : Cart) (K : Core κ)

/-- The light-gun branch leaves the switch state and the configuration alone. -/
theorem lightgunBranch_frame (held : Nat) (s : Emu κ) :
    (lightgunBranch P C held s).left_difficulty_down = s.left_difficulty_down ∧
    (lightgunBranch P C held s).right_difficulty_down = s.right_difficulty_down ∧
    (lightgunBranch P C held s).diff_wait_count = s.diff_wait_count ∧
    (lightgunBranch P C held s).diff_display_count = s.diff_display_count ∧
    (lightgunBranch P C held s).lightgun_enabled = s.lightgun_enabled ∧
    (lightgunBranch P C held s).wii_diff_switch_enabled = s.wii_diff_switch_enabled ∧
    (lightgunBranch P C held s).wii_swap_buttons = s.wii_swap_buttons := by
  unfold lightgunBranch
  simp only []
  split_ifs <;> exact ⟨rfl, rfl, rfl, rfl, rfl, rfl, rfl⟩

/-- The light-gun branch writes slot 3 and no other slot. -/
theorem lightgunBranch_kbd (held : Nat) (s : Emu κ) :
    (lightgunBranch P C held s).keyboard_data =
      s.keyboard_data.set 3
        (if s.lightgun_first_fire then 1 else b2u (!(triggerHeld P held))) := by
  unfold lightgunBranch
  simp only []
  split_ifs <;> rfl

theorem lightgunBranch_first_fire (held : Nat) (s : Emu κ) :
    (lightgunBranch P C held s).lightgun_first_fire =
      (s.lightgun_first_fire && triggerHeld P held) := by
  unfold lightgunBranch
  simp only []
  split_ifs <;> simp_all

theorem lightgunBranch_coords (held : Nat) (s : Emu κ) :
    (lightgunBranch P C held s).lightgun_cycle =
        (if lgCycle0 P s.wii_ir_x > f32 (P.CYCLES_PER_SCANLINE : ℚ)
          then f32 (lgCycle0 P s.wii_ir_x - f32 (P.CYCLES_PER_SCANLINE : ℚ))
          else lgCycle0 P s.wii_ir_x) ∧
    (lightgunBranch P C held s).lightgun_scanline =
        (if lgCycle0 P s.wii_ir_x > f32 (P.CYCLES_PER_SCANLINE : ℚ)
          then lgScanline0 P C s.wii_ir_y + 1
          else lgScanline0 P C s.wii_ir_y) := by
  unfold lightgunBranch
  simp only []
  split_ifs <;> exact ⟨rfl, rfl⟩

/-- The store `keyboard_data[i] = v` with `i < 12` leaves the console slots alone. -/
theorem Kbd.set_high (kb : Kbd) (i v : Nat) (hi : i < 12) (j : Fin 19) (hj : 12 ≤ j.val) :
    Kbd.set kb i v j = kb j := by
  rw [Kbd.set_apply, if_neg (by omega)]

theorem portOffset_le (joyIndex : Nat) : portOffset joyIndex ≤ 6 := by
  unfold portOffset; split <;> omega

/-- The joystick branch writes the six slots of its port and nothing else. -/
theorem joystickBranch_kbd_high (joyIndex : Nat) (inp : FrameInput) (s : Emu κ)
    (j : Fin 19) (hj : 12 ≤ j.val) :
    (joystickBranch P C joyIndex inp s).keyboard_data j = s.keyboard_data j := by
  have ho := portOffset_le joyIndex
  unfold joystickBranch
  simp only []
  rw [Kbd.set_high _ _ _ (by split <;> omega) j hj,
    Kbd.set_high _ _ _ (by split <;> omega) j hj,
    Kbd.set_high _ _ _ (by omega) j hj, Kbd.set_high _ _ _ (by omega) j hj,
    Kbd.set_high _ _ _ (by omega) j hj, Kbd.set_high _ _ _ (by omega) j hj]

/-- The port part of `wii_atari_update_joystick` (lines 495-598). -/
theorem portBranch_frame (joyIndex : Nat) (inp : FrameInput) (s : Emu κ) (lg : Bool) :
    let t : Emu κ :=
      if lg then lightgunBranch P C (inp.pad joyIndex).held s
      else joystickBranch P C joyIndex inp s
    t.left_difficulty_down = s.left_difficulty_down ∧
    t.right_difficulty_down = s.right_difficulty_down ∧
    t.diff_wait_count = s.diff_wait_count ∧
    t.diff_display_count = s.diff_display_count ∧
    t.lightgun_enabled = s.lightgun_enabled ∧
    t.wii_diff_switch_enabled = s.wii_diff_switch_enabled ∧
    ∀ j : Fin 19, 12 ≤ j.val → t.keyboard_data j = s.keyboard_data j := by
  cases lg
  · simp only [Bool.false_eq_true, if_false]
    exact ⟨rfl, rfl, rfl, rfl, rfl, rfl, joystickBranch_kbd_high P C joyIndex inp s⟩
  · simp only [if_true]
    obtain ⟨h1, h2, h3, h4, h5, h6, _⟩ := lightgunBranch_frame P C (inp.pad joyIndex).held s
    refine ⟨h1, h2, h3, h4, h5, h6, ?_⟩
    intro j hj
    rw [lightgunBranch_kbd, Kbd.set_apply, if_neg (by omega)]

theorem pause_frame (p : Bool) (s : Emu κ) :
    (wii_atari_pause K p s).keyboard_data = s.keyboard_data ∧
    (wii_atari_pause K p s).left_difficulty_down = s.left_difficulty_down ∧
    (wii_atari_pause K p s).right_difficulty_down = s.right_difficulty_down ∧
    (wii_atari_pause K p s).diff_wait_count = s.diff_wait_count ∧
    (wii_atari_pause K p s).diff_display_count = s.diff_display_count ∧
    (wii_atari_pause K p s).lightgun_enabled = s.lightgun_enabled ∧
    (wii_atari_pause K p s).wii_diff_switch_enabled = s.wii_diff_switch_enabled ∧
    (wii_atari_pause K p s).lightgun_first_fire = s.lightgun_first_fire ∧
    (wii_atari_pause K p s).lightgun_scanline = s.lightgun_scanline ∧
    (wii_atari_pause K p s).lightgun_cycle = s.lightgun_cycle ∧
    (wii_atari_pause K p s).wii_swap_buttons = s.wii_swap_buttons := by
  unfold wii_atari_pause
  simp only []
  split_ifs <;> exact ⟨rfl, rfl, rfl, rfl, rfl, rfl, rfl, rfl, rfl, rfl, rfl⟩

/-- What the left switch code does to the switch state, by cases. -/
theorem leftDifficulty_spec (lg : Bool) (p : Pad) (s : Emu κ) :
    let t := leftDifficulty P C lg p s
    t.right_difficulty_down = s.right_difficulty_down ∧
    t.diff_wait_count = s.diff_wait_count ∧
    t.lightgun_enabled = s.lightgun_enabled ∧
    t.wii_diff_switch_enabled = s.wii_diff_switch_enabled ∧
    (∀ j : Fin 19, j.val ≠ 15 → t.keyboard_data j = s.keyboard_data j) ∧
    (s.diff_wait_count ≠ 0 ∨ leftDiffTrigger P lg p = false →
      t.keyboard_data = s.keyboard_data ∧ t.left_difficulty_down = false ∧
      t.diff_display_count = s.diff_display_count) ∧
    (s.diff_wait_count = 0 → leftDiffTrigger P lg p = true →
      s.left_difficulty_down = true →
      t.keyboard_data = s.keyboard_data ∧ t.left_difficulty_down = true ∧
      t.diff_display_count = s.diff_display_count) ∧
    (s.diff_wait_count = 0 → leftDiffTrigger P lg p = true →
      s.left_difficulty_down = false →
      t.keyboard_data 15 = lnot (s.keyboard_data 15) ∧ t.left_difficulty_down = true) := by
  unfold leftDifficulty
  simp only []
  by_cases hw : s.diff_wait_count = 0 <;> cases ht : leftDiffTrigger P lg p <;>
    cases hd : s.left_difficulty_down <;>
    simp [hw, ht, hd, Kbd.set_apply]
  exact ⟨fun j hj hj2 => absurd hj2 hj, fun h => absurd rfl h⟩

/-- What the right switch code does to the switch state, by cases. -/
theorem rightDifficulty_spec (lg : Bool) (p : Pad) (s : Emu κ) :
    let t := rightDifficulty P C lg p s
    t.left_difficulty_down = s.left_difficulty_down ∧
    t.diff_wait_count = s.diff_wait_count ∧
    t.lightgun_enabled = s.lightgun_enabled ∧
    t.wii_diff_switch_enabled = s.wii_diff_switch_enabled ∧
    (∀ j : Fin 19, j.val ≠ 16 → t.keyboard_data j = s.keyboard_data j) ∧
    (s.diff_wait_count ≠ 0 ∨ rightDiffTrigger P lg p = false →
      t.keyboard_data = s.keyboard_data ∧ t.right_difficulty_down = false ∧
      t.diff_display_count = s.diff_display_count) ∧
    (s.diff_wait_count = 0 → rightDiffTrigger P lg p = true →
      s.right_difficulty_down = true →
      t.keyboard_data = s.keyboard_data ∧ t.right_difficulty_down = true ∧
      t.diff_display_count = s.diff_display_count) ∧
    (s.diff_wait_count = 0 → rightDiffTrigger P lg p = true →
      s.right_difficulty_down = false →
      t.keyboard_data 16 = lnot (s.keyboard_data 16) ∧ t.right_difficulty_down = true) := by
  unfold rightDifficulty
  simp only []
  by_cases hw : s.diff_wait_count = 0 <;> cases ht : rightDiffTrigger P lg p <;>
    cases hd : s.right_difficulty_down <;>
    simp [hw, ht, hd, Kbd.set_apply]
  exact ⟨fun j hj hj2 => absurd hj2 hj, fun h => absurd rfl h⟩

end Frames

section Port0

variable (P : Plat) (C : Cart) (K : Core κ)

theorem consoleButtons_kbd (p : Pad) (s : Emu κ) (j : Fin 19)
    (hj : j.val < 12 ∨ 15 ≤ j.val) :
    (consoleButtons P p s).keyboard_data j = s.keyboard_data j := by
  unfold consoleButtons
  simp only [Kbd.set_apply]
  rw [if_neg (by omega), if_neg (by omega), if_neg (by omega)]

/-- The state of the port-0 call just before the difficulty switches are read. -/
theorem update_joystick_zero (inp : FrameInput) (s : Emu κ) :
    wii_atari_update_joystick P C K 0 inp s =
      consoleBranch P C K s.lightgun_enabled inp
        (if s.lightgun_enabled then lightgunBranch P C (inp.pad 0).held s
         else joystickBranch P C 0 inp s) := by
  unfold wii_atari_update_joystick
  simp

theorem update_joystick_other (joyIndex : Nat) (h : joyIndex ≠ 0) (inp : FrameInput)
    (s : Emu κ) :
    wii_atari_update_joystick P C K joyIndex inp s = joystickBranch P C joyIndex inp s := by
  unfold wii_atari_update_joystick
  simp [h]

/-- The console part when the switches are enabled, without the pause request. -/
theorem consoleBranch_enabled (lg : Bool) (inp : FrameInput) (s : Emu κ)
    (hen : s.wii_diff_switch_enabled = true) :
    ∃ t : Emu κ,
      (consoleBranch P C K lg inp s = t ∨ consoleBranch P C K lg inp s = wii_atari_pause K true t) ∧
      t = rightDifficulty P C lg (inp.pad 0)
            (leftDifficulty P C lg (inp.pad 0) (consoleButtons P (inp.pad 0) s)) := by
  have h1 : (consoleButtons P (inp.pad 0) s).wii_diff_switch_enabled = true := hen
  refine ⟨_, ?_, rfl⟩
  unfold consoleBranch
  simp only [h1, if_true]
  split
  · exact Or.inr rfl
  · exact Or.inl rfl

/-- One port-0 call with the switches enabled and the settle timer expired: the
effect on the left switch. -/
theorem update0_left (inp : FrameInput) (s : Emu κ)
    (hen : s.wii_diff_switch_enabled = true) (hw : s.diff_wait_count = 0) :
    let t := wii_atari_update_joystick P C K 0 inp s
    t.wii_diff_switch_enabled = true ∧ t.diff_wait_count = 0 ∧
    t.lightgun_enabled = s.lightgun_enabled ∧
    (leftDiffTrigger P s.lightgun_enabled (inp.pad 0) = false →
      t.keyboard_data 15 = s.keyboard_data 15 ∧ t.left_difficulty_down = false) ∧
    (leftDiffTrigger P s.lightgun_enabled (inp.pad 0) = true →
      s.left_difficulty_down = true →
      t.keyboard_data 15 = s.keyboard_data 15 ∧ t.left_difficulty_down = true) ∧
    (leftDiffTrigger P s.lightgun_enabled (inp.pad 0) = true →
      s.left_difficulty_down = false →
      t.keyboard_data 15 = lnot (s.keyboard_data 15) ∧ t.left_difficulty_down = true) := by
  intro t
  obtain ⟨a1, a2, a3, a4, a5, a6, a7⟩ := portBranch_frame P C 0 inp s s.lightgun_enabled
  set s0 : Emu κ :=
    if s.lightgun_enabled then lightgunBranch P C (inp.pad 0).held s
    else joystickBranch P C 0 inp s with hs0
  set s1 := consoleButtons P (inp.pad 0) s0 with hs1
  have k1 : s1.keyboard_data 15 = s.keyboard_data 15 := by
    rw [hs1, consoleButtons_kbd P _ _ 15 (Or.inr (le_refl _))]; exact a7 15 (by decide)
  have w1 : s1.diff_wait_count = 0 := by rw [← hw, ← a3]; rfl
  have d1 : s1.left_difficulty_down = s.left_difficulty_down := a1
  have e1 : s1.wii_diff_switch_enabled = true := by rw [← hen, ← a6]; rfl
  have g1 : s1.lightgun_enabled = s.lightgun_enabled := a5
  obtain ⟨_, l2, l3, l4, _, l6, l7, l8⟩ := leftDifficulty_spec P C s.lightgun_enabled (inp.pad 0) s1
  set sL := leftDifficulty P C s.lightgun_enabled (inp.pad 0) s1 with hsL
  obtain ⟨r1, r2, r3, r4, r5, _, _, _⟩ := rightDifficulty_spec P C s.lightgun_enabled (inp.pad 0) sL
  set sR := rightDifficulty P C s.lightgun_enabled (inp.pad 0) sL with hsR
  have kR : sR.keyboard_data 15 = sL.keyboard_data 15 := r5 15 (by decide)
  obtain ⟨u, hu, hu2⟩ := consoleBranch_enabled P C K s.lightgun_enabled inp s0 (by rw [a6, hen])
  have hu3 : u = sR := hu2
  obtain ⟨p1, p2, _, p4, _, p6, p7, _⟩ := pause_frame K true sR
  have ht : t = consoleBranch P C K s.lightgun_enabled inp s0 :=
    update_joystick_zero P C K inp s
  have key : t.keyboard_data = sR.keyboard_data ∧
      t.left_difficulty_down = sR.left_difficulty_down ∧
      t.diff_wait_count = sR.diff_wait_count ∧
      t.lightgun_enabled = sR.lightgun_enabled ∧
      t.wii_diff_switch_enabled = sR.wii_diff_switch_enabled := by
    rw [ht]
    rcases hu with hu | hu
    · rw [hu, hu3]; exact ⟨rfl, rfl, rfl, rfl, rfl⟩
    · rw [hu, hu3]; exact ⟨p1, p2, p4, p6, p7⟩
  obtain ⟨t1, t2, t3, t4, t5⟩ := key
  refine ⟨by rw [t5, r4, l4, e1], by rw [t3, r2, l2, w1], by rw [t4, r3, l3, g1], ?_, ?_, ?_⟩
  · intro htr
    obtain ⟨q1, q2, _⟩ := l6 (Or.inr htr)
    exact ⟨by rw [t1, kR, q1, k1], by rw [t2, r1, q2]⟩
  · intro htr hd
    obtain ⟨q1, q2, _⟩ := l7 w1 htr (by rw [d1, hd])
    exact ⟨by rw [t1, kR, q1, k1], by rw [t2, r1, q2]⟩
  · intro htr hd
    obtain ⟨q1, q2⟩ := l8 w1 htr (by rw [d1, hd])
    exact ⟨by rw [t1, kR, q1, k1], by rw [t2, r1, q2]⟩

/-- One port-0 call with the switches enabled and the settle timer expired: the
effect on the right switch. -/
theorem update0_right (inp : FrameInput) (s : Emu κ)
    (hen : s.wii_diff_switch_enabled = true) (hw : s.diff_wait_count = 0) :
    let t := wii_atari_update_joystick P C K 0 inp s
    (rightDiffTrigger P s.lightgun_enabled (inp.pad 0) = false →
      t.keyboard_data 16 = s.keyboard_data 16 ∧ t.right_difficulty_down = false) ∧
    (rightDiffTrigger P s.lightgun_enabled (inp.pad 0) = true →
      s.right_difficulty_down = true →
      t.keyboard_data 16 = s.keyboard_data 16 ∧ t.right_difficulty_down = true) ∧
    (rightDiffTrigger P s.lightgun_enabled (inp.pad 0) = true →
      s.right_difficulty_down = false →
      t.keyboard_data 16 = lnot (s.keyboard_data 16) ∧ t.right_difficulty_down = true) := by
  intro t
  obtain ⟨_, a2, a3, _, _, a6, a7⟩ := portBranch_frame P C 0 inp s s.lightgun_enabled
  set s0 : Emu κ :=
    if s.lightgun_enabled then lightgunBranch P C (inp.pad 0).held s
    else joystickBranch P C 0 inp s with hs0
  set s1 := consoleButtons P (inp.pad 0) s0 with hs1
  have k1 : s1.keyboard_data 16 = s.keyboard_data 16 := by
    rw [hs1, consoleButtons_kbd P _ _ 16 (Or.inr (by decide))]; exact a7 16 (by decide)
  have w1 : s1.diff_wait_count = 0 := by rw [← hw, ← a3]; rfl
  have d1 : s1.right_difficulty_down = s.right_difficulty_down := a2
  obtain ⟨l1, l2, _, _, l5, _, _, _⟩ := leftDifficulty_spec P C s.lightgun_enabled (inp.pad 0) s1
  set sL := leftDifficulty P C s.lightgun_enabled (inp.pad 0) s1 with hsL
  have kL : sL.keyboard_data 16 = s.keyboard_data 16 := by rw [l5 16 (by decide), k1]
  have wL : sL.diff_wait_count = 0 := by rw [l2, w1]
  have dL : sL.right_difficulty_down = s.right_difficulty_down := by rw [l1, d1]
  obtain ⟨_, _, _, _, _, r6, r7, r8⟩ := rightDifficulty_spec P C s.lightgun_enabled (inp.pad 0) sL
  set sR := rightDifficulty P C s.lightgun_enabled (inp.pad 0) sL with hsR
  obtain ⟨u, hu, hu2⟩ := consoleBranch_enabled P C K s.lightgun_enabled inp s0 (by rw [a6, hen])
  have hu3 : u = sR := hu2
  obtain ⟨p1, _, p3, _⟩ := pause_frame K true sR
  have ht : t = consoleBranch P C K s.lightgun_enabled inp s0 :=
    update_joystick_zero P C K inp s
  have key : t.keyboard_data = sR.keyboard_data ∧
      t.right_difficulty_down = sR.right_difficulty_down := by
    rw [ht]
    rcases hu with hu | hu
    · rw [hu, hu3]; exact ⟨rfl, rfl⟩
    · rw [hu, hu3]; exact ⟨p1, p3⟩
  obtain ⟨t1, t2⟩ := key
  refine ⟨?_, ?_, ?_⟩
  · intro htr
    obtain ⟨q1, q2, _⟩ := r6 (Or.inr htr)
    exact ⟨by rw [t1, q1, kL], by rw [t2, q2]⟩
  · intro htr hd
    obtain ⟨q1, q2, _⟩ := r7 wL htr (by rw [dL, hd])
    exact ⟨by rw [t1, q1, kL], by rw [t2, q2]⟩
  · intro htr hd
    obtain ⟨q1, q2⟩ := r8 wL htr (by rw [dL, hd])
    exact ⟨by rw [t1, q1, kL], by rw [t2, q2]⟩

theorem runPort0_append (l1 l2 : List FrameInput) (s : Emu κ) :
    runPort0 P C K (l1 ++ l2) s = runPort0 P C K l2 (runPort0 P C K l1 s) := by
  induction l1 generalizing s with
  | nil => rfl
  | cons a l ih => simp only [List.cons_append, runPort0]; exact ih _

end Port0

section Debounce

variable (P : Plat) (C : Cart) (K : Core κ)

theorem lnot_ne (v : Nat) : lnot v ≠ v := by
  unfold lnot
  split <;> omega

/-- While the left trigger stays active and the switch is latched as held, port-0
calls leave slot 15 and the latch alone. -/
theorem held_left (ms : List FrameInput) :
    ∀ t : Emu κ, t.wii_diff_switch_enabled = true → t.diff_wait_count = 0 →
      t.left_difficulty_down = true →
      (∀ m ∈ ms, leftDiffTrigger P t.lightgun_enabled (m.pad 0) = true) →
      (runPort0 P C K ms t).keyboard_data 15 = t.keyboard_data 15 ∧
      (runPort0 P C K ms t).left_difficulty_down = true ∧
      (runPort0 P C K ms t).wii_diff_switch_enabled = true ∧
      (runPort0 P C K ms t).diff_wait_count = 0 ∧
      (runPort0 P C K ms t).lightgun_enabled = t.lightgun_enabled := by
  induction ms with
  | nil => intro t hen hw hd _; exact ⟨rfl, hd, hen, hw, rfl⟩
  | cons m ms ih =>
    intro t hen hw hd hall
    obtain ⟨a1, a2, a3, _, a5, _⟩ := update0_left P C K m t hen hw
    obtain ⟨b1, b2⟩ := a5 (hall m (List.mem_cons_self _ _)) hd
    have hall2 : ∀ x ∈ ms, leftDiffTrigger P
        (wii_atari_update_joystick P C K 0 m t).lightgun_enabled (x.pad 0) = true := by
      intro x hx
      rw [a3]
      exact hall x (List.mem_cons_of_mem _ hx)
    obtain ⟨c1, c2, c3, c4, c5⟩ := ih _ a1 a2 b2 hall2
    simp only [runPort0]
    exact ⟨by rw [c1, b1], c2, c3, c4, by rw [c5, a3]⟩

/-- While the right trigger stays active and the switch is latched as held, port-0
calls leave slot 16 and the latch alone. -/
theorem held_right (ms : List FrameInput) :
    ∀ t : Emu κ, t.wii_diff_switch_enabled = true → t.diff_wait_count = 0 →
      t.right_difficulty_down = true →
      (∀ m ∈ ms, rightDiffTrigger P t.lightgun_enabled (m.pad 0) = true) →
      (runPort0 P C K ms t).keyboard_data 16 = t.keyboard_data 16 ∧
      (runPort0 P C K ms t).right_difficulty_down = true ∧
      (runPort0 P C K ms t).wii_diff_switch_enabled = true ∧
      (runPort0 P C K ms t).diff_wait_count = 0 ∧
      (runPort0 P C K ms t).lightgun_enabled = t.lightgun_enabled := by
  induction ms with
  | nil => intro t hen hw hd _; exact ⟨rfl, hd, hen, hw, rfl⟩
  | cons m ms ih =>
    intro t hen hw hd hall
    obtain ⟨a1, a2, a3, _⟩ := update0_left P C K m t hen hw
    obtain ⟨_, a5, _⟩ := update0_right P C K m t hen hw
    obtain ⟨b1, b2⟩ := a5 (hall m (List.mem_cons_self _ _)) hd
    have hall2 : ∀ x ∈ ms, rightDiffTrigger P
        (wii_atari_update_joystick P C K 0 m t).lightgun_enabled (x.pad 0) = true := by
      intro x hx
      rw [a3]
      exact hall x (List.mem_cons_of_mem _ hx)
    obtain ⟨c1, c2, c3, c4, c5⟩ := ih _ a1 a2 b2 hall2
    simp only [runPort0]
    exact ⟨by rw [c1, b1], c2, c3, c4, by rw [c5, a3]⟩

end Debounce


section Console

variable (P : Plat) (C : Cart) (K : Core κ)

theorem leftDifficulty_frame (lg : Bool) (p : Pad) (s : Emu κ) :
    (leftDifficulty P C lg p s).lightgun_first_fire = s.lightgun_first_fire ∧
    (leftDifficulty P C lg p s).lightgun_enabled = s.lightgun_enabled ∧
    (leftDifficulty P C lg p s).lightgun_scanline = s.lightgun_scanline ∧
    (leftDifficulty P C lg p s).lightgun_cycle = s.lightgun_cycle ∧
    (leftDifficulty P C lg p s).wii_ir_x = s.wii_ir_x ∧
    (leftDifficulty P C lg p s).wii_ir_y = s.wii_ir_y ∧
    (leftDifficulty P C lg p s).wii_swap_buttons = s.wii_swap_buttons := by
  unfold leftDifficulty
  split_ifs <;> exact ⟨rfl, rfl, rfl, rfl, rfl, rfl, rfl⟩

theorem rightDifficulty_frame (lg : Bool) (p : Pad) (s : Emu κ) :
    (rightDifficulty P C lg p s).lightgun_first_fire = s.lightgun_first_fire ∧
    (rightDifficulty P C lg p s).lightgun_enabled = s.lightgun_enabled ∧
    (rightDifficulty P C lg p s).lightgun_scanline = s.lightgun_scanline ∧
    (rightDifficulty P C lg p s).lightgun_cycle = s.lightgun_cycle ∧
    (rightDifficulty P C lg p s).wii_ir_x = s.wii_ir_x ∧
    (rightDifficulty P C lg p s).wii_ir_y = s.wii_ir_y ∧
    (rightDifficulty P C lg p s).wii_swap_buttons = s.wii_swap_buttons := by
  unfold rightDifficulty
  split_ifs <;> exact ⟨rfl, rfl, rfl, rfl, rfl, rfl, rfl⟩

/-- The shape of the console part: the three button stores, then the two switches
when they are enabled, then possibly a pause request. -/
theorem consoleBranch_cases (lg : Bool) (inp : FrameInput) (s : Emu κ) :
    ∃ t : Emu κ,
      (consoleBranch P C K lg inp s = t ∨ consoleBranch P C K lg inp s = wii_atari_pause K true t) ∧
      (t = consoleButtons P (inp.pad 0) s ∨
       t = rightDifficulty P C lg (inp.pad 0)
            (leftDifficulty P C lg (inp.pad 0) (consoleButtons P (inp.pad 0) s))) := by
  unfold consoleBranch
  simp only []
  split_ifs <;>
    first
    | exact ⟨consoleButtons P (inp.pad 0) s, Or.inl rfl, Or.inl rfl⟩
    | exact ⟨consoleButtons P (inp.pad 0) s, Or.inr rfl, Or.inl rfl⟩
    | exact ⟨_, Or.inl rfl, Or.inr rfl⟩
    | exact ⟨_, Or.inr rfl, Or.inr rfl⟩

/-- The console part writes slots 12 to 16 only and leaves the light-gun state alone. -/
theorem consoleBranch_low (lg : Bool) (inp : FrameInput) (s : Emu κ) :
    (∀ j : Fin 19, j.val < 12 →
      (consoleBranch P C K lg inp s).keyboard_data j = s.keyboard_data j) ∧
    (consoleBranch P C K lg inp s).lightgun_first_fire = s.lightgun_first_fire ∧
    (consoleBranch P C K lg inp s).lightgun_enabled = s.lightgun_enabled ∧
    (consoleBranch P C K lg inp s).lightgun_scanline = s.lightgun_scanline ∧
    (consoleBranch P C K lg inp s).lightgun_cycle = s.lightgun_cycle ∧
    (consoleBranch P C K lg inp s).wii_swap_buttons = s.wii_swap_buttons := by
  obtain ⟨t, ht, ht2⟩ := consoleBranch_cases P C K lg inp s
  have hb : ∀ j : Fin 19, j.val < 12 →
      (consoleButtons P (inp.pad 0) s).keyboard_data j = s.keyboard_data j :=
    fun j hj => consoleButtons_kbd P _ s j (Or.inl hj)
  have key : (∀ j : Fin 19, j.val < 12 → t.keyboard_data j = s.keyboard_data j) ∧
      t.lightgun_first_fire = s.lightgun_first_fire ∧
      t.lightgun_enabled = s.lightgun_enabled ∧
      t.lightgun_scanline = s.lightgun_scanline ∧
      t.lightgun_cycle = s.lightgun_cycle ∧
      t.wii_swap_buttons = s.wii_swap_buttons := by
    rcases ht2 with h | h
    · rw [h]; exact ⟨hb, rfl, rfl, rfl, rfl, rfl⟩
    · obtain ⟨_, _, _, _, l5, _⟩ :=
        leftDifficulty_spec P C lg (inp.pad 0) (consoleButtons P (inp.pad 0) s)
      obtain ⟨_, _, _, _, r5, _⟩ :=
        rightDifficulty_spec P C lg (inp.pad 0)
          (leftDifficulty P C lg (inp.pad 0) (consoleButtons P (inp.pad 0) s))
      obtain ⟨x1, x2, x3, x4, _, _, x7⟩ :=
        leftDifficulty_frame P C lg (inp.pad 0) (consoleButtons P (inp.pad 0) s)
      obtain ⟨y1, y2, y3, y4, _, _, y7⟩ :=
        rightDifficulty_frame P C lg (inp.pad 0)
          (leftDifficulty P C lg (inp.pad 0) (consoleButtons P (inp.pad 0) s))
      rw [h]
      refine ⟨fun j hj => ?_, by rw [y1, x1]; rfl, by rw [y2, x2]; rfl, by rw [y3, x3]; rfl,
        by rw [y4, x4]; rfl, by rw [y7, x7]; rfl⟩
      rw [r5 j (by omega), l5 j (by omega)]
      exact hb j hj
  obtain ⟨k1, k2, k3, k4, k5, k6⟩ := key
  obtain ⟨p1, _, _, _, _, p6, _, p8, p9, p10, p11⟩ := pause_frame K true t
  rcases ht with h | h
  · rw [h]; exact ⟨k1, k2, k3, k4, k5, k6⟩
  · rw [h]
    exact ⟨fun j hj => by rw [p1]; exact k1 j hj, by rw [p8, k2], by rw [p6, k3],
      by rw [p9, k4], by rw [p10, k5], by rw [p11, k6]⟩

/-- With the settle timer running, the console part leaves both switch slots and
the display timer alone. -/
theorem consoleBranch_wait (lg : Bool) (inp : FrameInput) (s : Emu κ)
    (hw : s.diff_wait_count ≠ 0) :
    (consoleBranch P C K lg inp s).keyboard_data 15 = s.keyboard_data 15 ∧
    (consoleBranch P C K lg inp s).keyboard_data 16 = s.keyboard_data 16 ∧
    (consoleBranch P C K lg inp s).diff_display_count = s.diff_display_count := by
  obtain ⟨t, ht, ht2⟩ := consoleBranch_cases P C K lg inp s
  have hb : ∀ j : Fin 19, 15 ≤ j.val →
      (consoleButtons P (inp.pad 0) s).keyboard_data j = s.keyboard_data j :=
    fun j hj => consoleButtons_kbd P _ s j (Or.inr hj)
  have key : t.keyboard_data 15 = s.keyboard_data 15 ∧
      t.keyboard_data 16 = s.keyboard_data 16 ∧
      t.diff_display_count = s.diff_display_count := by
    rcases ht2 with h | h
    · rw [h]; exact ⟨hb 15 (by decide), hb 16 (by decide), rfl⟩
    · obtain ⟨_, l2, _, _, _, l6, _⟩ :=
        leftDifficulty_spec P C lg (inp.pad 0) (consoleButtons P (inp.pad 0) s)
      obtain ⟨_, _, _, _, _, r6, _⟩ :=
        rightDifficulty_spec P C lg (inp.pad 0)
          (leftDifficulty P C lg (inp.pad 0) (consoleButtons P (inp.pad 0) s))
      obtain ⟨a1, _, a3⟩ := l6 (Or.inl hw)
      obtain ⟨b1, _, b3⟩ := r6 (Or.inl (by rw [l2]; exact hw))
      rw [h]
      exact ⟨by rw [b1, a1]; exact hb 15 (by decide), by rw [b1, a1]; exact hb 16 (by decide),
        by rw [b3, a3]; rfl⟩
  obtain ⟨k1, k2, k3⟩ := key
  obtain ⟨p1, _, _, _, p5, _⟩ := pause_frame K true t
  rcases ht with h | h
  · rw [h]; exact ⟨k1, k2, k3⟩
  · rw [h]; exact ⟨by rw [p1, k1], by rw [p1, k2], by rw [p5, k3]⟩

end Console

section Lightgun

variable (P : Plat) (C : Cart) (K : Core κ)

/-- One port-0 call with the light gun enabled. -/
theorem update0_lightgun (inp : FrameInput) (s : Emu κ) (hen : s.lightgun_enabled = true) :
    (wii_atari_update_joystick P C K 0 inp s).lightgun_enabled = true ∧
    (wii_atari_update_joystick P C K 0 inp s).lightgun_first_fire =
      (s.lightgun_first_fire && triggerHeld P (inp.pad 0).held) ∧
    (∀ j : Fin 19, j.val < 12 →
      (wii_atari_update_joystick P C K 0 inp s).keyboard_data j =
        Kbd.set s.keyboard_data 3
          (if s.lightgun_first_fire then 1 else b2u (!(triggerHeld P (inp.pad 0).held))) j) ∧
    (wii_atari_update_joystick P C K 0 inp s).lightgun_cycle =
        (if lgCycle0 P s.wii_ir_x > f32 (P.CYCLES_PER_SCANLINE : ℚ)
          then f32 (lgCycle0 P s.wii_ir_x - f32 (P.CYCLES_PER_SCANLINE : ℚ))
          else lgCycle0 P s.wii_ir_x) ∧
    (wii_atari_update_joystick P C K 0 inp s).lightgun_scanline =
        (if lgCycle0 P s.wii_ir_x > f32 (P.CYCLES_PER_SCANLINE : ℚ)
          then lgScanline0 P C s.wii_ir_y + 1
          else lgScanline0 P C s.wii_ir_y) := by
  rw [update_joystick_zero, hen]
  simp only [if_true]
  obtain ⟨c1, c2, c3, c4, c5, _⟩ :=
    consoleBranch_low P C K true inp (lightgunBranch P C (inp.pad 0).held s)
  obtain ⟨_, _, _, _, f5, _⟩ := lightgunBranch_frame P C (inp.pad 0).held s
  obtain ⟨g1, g2⟩ := lightgunBranch_coords P C (inp.pad 0).held s
  refine ⟨by rw [c3, f5, hen], by rw [c2, lightgunBranch_first_fire], ?_, by rw [c5, g1],
    by rw [c4, g2]⟩
  intro j hj
  rw [c1 j hj, lightgunBranch_kbd]

/-- While the trigger has never been seen released, every port-0 call stores 1 in
slot 3 and the first-fire latch stays set. -/
theorem first_fire_phase (ms : List FrameInput) :
    ∀ t : Emu κ, t.lightgun_enabled = true → t.lightgun_first_fire = true →
      (∀ m ∈ ms, triggerHeld P (m.pad 0).held = true) →
      (runPort0 P C K ms t).lightgun_enabled = true ∧
      (runPort0 P C K ms t).lightgun_first_fire = true ∧
      (runPort0 P C K ms t).keyboard_data 3 =
        (if ms.length = 0 then t.keyboard_data 3 else 1) := by
  induction ms with
  | nil => intro t hen hff _; exact ⟨hen, hff, rfl⟩
  | cons m ms ih =>
    intro t hen hff hall
    obtain ⟨a1, a2, a3, _⟩ := update0_lightgun P C K m t hen
    have hm := hall m (List.mem_cons_self _ _)
    have b2 : (wii_atari_update_joystick P C K 0 m t).lightgun_first_fire = true := by
      rw [a2, hff, hm]; rfl
    have b3 : (wii_atari_update_joystick P C K 0 m t).keyboard_data 3 = 1 := by
      rw [a3 3 (by decide), Kbd.set_apply, hff]; rfl
    obtain ⟨c1, c2, c3⟩ := ih _ a1 b2 (fun x hx => hall x (List.mem_cons_of_mem _ hx))
    simp only [runPort0]
    refine ⟨c1, c2, ?_⟩
    rw [c3, b3]
    simp

/-- Once the first-fire latch is clear it stays clear. -/
theorem mirror_phase (ms : List FrameInput) :
    ∀ t : Emu κ, t.lightgun_enabled = true → t.lightgun_first_fire = false →
      (runPort0 P C K ms t).lightgun_enabled = true ∧
      (runPort0 P C K ms t).lightgun_first_fire = false := by
  induction ms with
  | nil => intro t hen hff; exact ⟨hen, hff⟩
  | cons m ms ih =>
    intro t hen hff
    obtain ⟨a1, a2, _⟩ := update0_lightgun P C K m t hen
    simp only [runPort0]
    exact ih _ a1 (by rw [a2, hff]; rfl)

end Lightgun

section Keys

variable (P : Plat) (C : Cart) (K : Core κ)

/-- The light-gun coordinates after `wii_atari_update_keys`, in terms of the
pointer position stored by `wii_atari_update_wiimote_ir`. -/
theorem update_keys_coords (inp : FrameInput) (s : Emu κ) (hen : s.lightgun_enabled = true) :
    (wii_atari_update_keys P C K inp s).lightgun_cycle =
        (if lgCycle0 P (if inp.irValid then inp.irX else -100) > f32 (P.CYCLES_PER_SCANLINE : ℚ)
          then f32 (lgCycle0 P (if inp.irValid then inp.irX else -100) - f32 (P.CYCLES_PER_SCANLINE : ℚ))
          else lgCycle0 P (if inp.irValid then inp.irX else -100)) ∧
    (wii_atari_update_keys P C K inp s).lightgun_scanline =
        (if lgCycle0 P (if inp.irValid then inp.irX else -100) > f32 (P.CYCLES_PER_SCANLINE : ℚ)
          then lgScanline0 P C (if inp.irValid then inp.irY else -100) + 1
          else lgScanline0 P C (if inp.irValid then inp.irY else -100)) := by
  have hk : wii_atari_update_keys P C K inp s =
      wii_atari_update_joystick P C K 1 inp (wii_atari_update_joystick P C K 0 inp
        (wii_atari_update_wiimote_ir inp
          { s with polls := s.polls + 1, trace := s.trace ++ [Event.scanPads] })) := by
    show wii_atari_update_joystick P C K 1 inp (wii_atari_update_joystick P C K 0 inp
        (if s.lightgun_enabled = true then _ else _)) = _
    rw [if_pos hen]
  set s1 : Emu κ := wii_atari_update_wiimote_ir inp
    { s with polls := s.polls + 1, trace := s.trace ++ [Event.scanPads] } with hs1
  have e1 : s1.lightgun_enabled = true := by
    rw [hs1]; unfold wii_atari_update_wiimote_ir; split <;> exact hen
  have x1 : s1.wii_ir_x = (if inp.irValid then inp.irX else -100) := by
    rw [hs1]; unfold wii_atari_update_wiimote_ir; split <;> rfl
  have y1 : s1.wii_ir_y = (if inp.irValid then inp.irY else -100) := by
    rw [hs1]; unfold wii_atari_update_wiimote_ir; split <;> rfl
  obtain ⟨_, _, _, a4, a5⟩ := update0_lightgun P C K inp s1 e1
  rw [x1] at a4 a5
  rw [y1] at a5
  rw [hk, update_joystick_other P C K 1 (by decide)]
  exact ⟨a4, a5⟩

end Keys



section Swap

variable (P : Plat) (C : Cart) (K : Core κ)

theorem consoleButtons_congr (p : Pad) (s t : Emu κ) (h : sameConsole s t) :
    sameConsole (consoleButtons P p s) (consoleButtons P p t) := by
  obtain ⟨hk, hl, hr, hw, hd, he⟩ := h
  refine ⟨fun j hj => ?_, hl, hr, hw, hd, he⟩
  unfold consoleButtons
  simp only [Kbd.set_apply]
  rw [hk j hj]

theorem leftDifficulty_congr (lg : Bool) (p : Pad) (s t : Emu κ) (h : sameConsole s t) :
    sameConsole (leftDifficulty P C lg p s) (leftDifficulty P C lg p t) := by
  obtain ⟨hk, hl, hr, hw, hd, he⟩ := h
  unfold leftDifficulty
  by_cases c1 : (decide (t.diff_wait_count = 0) && leftDiffTrigger P lg p) = true
  · have c1s : (decide (s.diff_wait_count = 0) && leftDiffTrigger P lg p) = true := by
      rw [hw]; exact c1
    rw [if_pos c1, if_pos c1s]
    by_cases c2 : (!t.left_difficulty_down) = true
    · have c2s : (!s.left_difficulty_down) = true := by rw [hl]; exact c2
      rw [if_pos c2, if_pos c2s]
      refine ⟨fun j hj => ?_, rfl, hr, hw, rfl, he⟩
      simp only [Kbd.set_apply]
      rw [hk 15 (by decide), hk j hj]
    · have c2s : ¬ (!s.left_difficulty_down) = true := by rw [hl]; exact c2
      rw [if_neg c2, if_neg c2s]
      exact ⟨hk, hl, hr, hw, hd, he⟩
  · have c1s : ¬ (decide (s.diff_wait_count = 0) && leftDiffTrigger P lg p) = true := by
      rw [hw]; exact c1
    rw [if_neg c1, if_neg c1s]
    exact ⟨hk, rfl, hr, hw, hd, he⟩

theorem rightDifficulty_congr (lg : Bool) (p : Pad) (s t : Emu κ) (h : sameConsole s t) :
    sameConsole (rightDifficulty P C lg p s) (rightDifficulty P C lg p t) := by
  obtain ⟨hk, hl, hr, hw, hd, he⟩ := h
  unfold rightDifficulty
  by_cases c1 : (decide (t.diff_wait_count = 0) && rightDiffTrigger P lg p) = true
  · have c1s : (decide (s.diff_wait_count = 0) && rightDiffTrigger P lg p) = true := by
      rw [hw]; exact c1
    rw [if_pos c1, if_pos c1s]
    by_cases c2 : (!t.right_difficulty_down) = true
    · have c2s : (!s.right_difficulty_down) = true := by rw [hr]; exact c2
      rw [if_pos c2, if_pos c2s]
      refine ⟨fun j hj => ?_, hl, rfl, hw, rfl, he⟩
      simp only [Kbd.set_apply]
      rw [hk 16 (by decide), hk j hj]
    · have c2s : ¬ (!s.right_difficulty_down) = true := by rw [hr]; exact c2
      rw [if_neg c2, if_neg c2s]
      exact ⟨hk, hl, hr, hw, hd, he⟩
  · have c1s : ¬ (decide (s.diff_wait_count = 0) && rightDiffTrigger P lg p) = true := by
      rw [hw]; exact c1
    rw [if_neg c1, if_neg c1s]
    exact ⟨hk, hl, rfl, hw, hd, he⟩

theorem pause_congr (b : Bool) (s t : Emu κ) (h : sameConsole s t) :
    sameConsole (wii_atari_pause K b s) (wii_atari_pause K b t) := by
  obtain ⟨hk, hl, hr, hw, hd, he⟩ := h
  obtain ⟨p1, p2, p3, p4, p5, _, p7, _⟩ := pause_frame K b s
  obtain ⟨q1, q2, q3, q4, q5, _, q7, _⟩ := pause_frame K b t
  exact ⟨fun j hj => by rw [p1, q1]; exact hk j hj, by rw [p2, q2, hl], by rw [p3, q3, hr],
    by rw [p4, q4, hw], by rw [p5, q5, hd], by rw [p7, q7, he]⟩

/-- The console part maps states that agree on the console view to states that
agree on the console view. -/
theorem consoleBranch_congr (lg : Bool) (inp : FrameInput) (s t : Emu κ)
    (h : sameConsole s t) :
    sameConsole (consoleBranch P C K lg inp s) (consoleBranch P C K lg inp t) := by
  have hb := consoleButtons_congr P (inp.pad 0) s t h
  have hd := rightDifficulty_congr P C lg (inp.pad 0) _ _
    (leftDifficulty_congr P C lg (inp.pad 0) _ _ hb)
  have e : (consoleButtons P (inp.pad 0) s).wii_diff_switch_enabled =
      (consoleButtons P (inp.pad 0) t).wii_diff_switch_enabled := hb.2.2.2.2.2
  unfold consoleBranch
  simp only []
  rw [e]
  split_ifs <;>
    first
    | exact hb
    | exact hd

/-- The six stores of the joystick branch, slot by slot. -/
theorem joystickBranch_kbd (joyIndex : Nat) (inp : FrameInput) (s : Emu κ) (j : Fin 19) :
    (joystickBranch P C joyIndex inp s).keyboard_data j =
      if j.val = (if s.wii_swap_buttons then 5 + portOffset joyIndex
          else 4 + portOffset joyIndex) then b2u (fire2Bit P (inp.pad joyIndex))
      else if j.val = (if s.wii_swap_buttons then 4 + portOffset joyIndex
          else 5 + portOffset joyIndex) then b2u (fireBit P (inp.pad joyIndex))
      else if j.val = 3 + portOffset joyIndex then b2u (upBit P C joyIndex inp)
      else if j.val = 2 + portOffset joyIndex then b2u (downBit P C joyIndex inp)
      else if j.val = 1 + portOffset joyIndex then b2u (leftBit P C joyIndex inp)
      else if j.val = 0 + portOffset joyIndex then b2u (rightBit P C joyIndex inp)
      else s.keyboard_data j := rfl

/-- A call of `wii_atari_update_joystick` for a port without the light gun: the
port slots come from the joystick branch, the rest from the console part. -/
theorem update_joystick_plain (joyIndex : Nat) (inp : FrameInput) (s : Emu κ)
    (hlg : (s.lightgun_enabled && joyIndex == 0) = false) :
    wii_atari_update_joystick P C K joyIndex inp s =
      if joyIndex = 0 then consoleBranch P C K false inp (joystickBranch P C joyIndex inp s)
      else joystickBranch P C joyIndex inp s := by
  unfold wii_atari_update_joystick
  simp only [hlg, Bool.false_eq_true, if_false]

/-- The joystick branch with the option on is the joystick branch with the option
off, with the two fire slots of the port exchanged. -/
theorem joystickBranch_swap (joyIndex : Nat) (inp : FrameInput) (s : Emu κ) (j : Fin 19) :
    (joystickBranch P C joyIndex inp { s with wii_swap_buttons := true }).keyboard_data j =
      Kbd.swapSlots
        (joystickBranch P C joyIndex inp { s with wii_swap_buttons := false }).keyboard_data
        (if joyIndex = 0 then 4 else 10) (if joyIndex = 0 then 5 else 11) j := by
  unfold Kbd.swapSlots
  simp only [joystickBranch_kbd, portOffset]
  obtain ⟨n, hn⟩ := j
  have e4 : ((4 : Fin 19) : Nat) = 4 := rfl
  have e5 : ((5 : Fin 19) : Nat) = 5 := rfl
  have e10 : ((10 : Fin 19) : Nat) = 10 := rfl
  have e11 : ((11 : Fin 19) : Nat) = 11 := rfl
  by_cases h0 : joyIndex = 0
  · simp only [h0, if_true, Fin.ext_iff, e4, e5]
    by_cases h4 : n = 4
    · subst h4; simp
    · by_cases h5 : n = 5
      · subst h5; simp
      · simp [h4, h5]
  · simp only [h0, if_false, Fin.ext_iff, e10, e11]
    by_cases h4 : n = 10
    · subst h4; simp
    · by_cases h5 : n = 11
      · subst h5; simp
      · simp [h4, h5]

end Swap

section Layout

variable (P : Plat) (C : Cart) (K : Core κ)

theorem lor_eq_zero (a b : Nat) : a ||| b = 0 ↔ a = 0 ∧ b = 0 := by
  constructor
  · intro h
    have hbit : ∀ i, a.testBit i = false ∧ b.testBit i = false := by
      intro i
      have := congrArg (fun n => Nat.testBit n i) h
      simpa [Nat.testBit_or] using this
    exact ⟨Nat.eq_of_testBit_eq (fun i => by simp [(hbit i).1]),
      Nat.eq_of_testBit_eq (fun i => by simp [(hbit i).2])⟩
  · rintro ⟨rfl, rfl⟩
    rfl

/-- The test `v & ( a | b )` succeeds exactly when `v & a` or `v & b` does. -/
theorem tst_lor (v a b : Nat) : tst v (a ||| b) = (tst v a || tst v b) := by
  unfold tst
  rw [Nat.and_or_distrib_left]
  by_cases ha : v &&& a = 0 <;> by_cases hb : v &&& b = 0 <;> simp [lor_eq_zero, ha, hb]

theorem tst_zero (v : Nat) : tst v 0 = false := by
  unfold tst
  simp

theorem b2u_eq_one (b : Bool) : b2u b = 1 ↔ b = true := by
  cases b <;> simp [b2u]

/-- The port slots after a call for a port without the light gun are those stored
by the joystick branch. -/
theorem update_joystick_plain_kbd (joyIndex : Nat) (inp : FrameInput) (s : Emu κ)
    (hlg : (s.lightgun_enabled && joyIndex == 0) = false) (j : Fin 19) (hj : j.val < 12) :
    (wii_atari_update_joystick P C K joyIndex inp s).keyboard_data j =
      (joystickBranch P C joyIndex inp s).keyboard_data j := by
  rw [update_joystick_plain P C K joyIndex inp s hlg]
  split
  · exact (consoleBranch_low P C K false inp _).1 j hj
  · rfl

/-- Slot layout of the joystick branch with `wii_swap_buttons` off: the four
direction slots follow their sources; the slot at offset 4 follows the `*_FIRE_2`
sources and the slot at offset 5 follows the `*_FIRE` sources. -/
theorem joystick_slot_layout (joyIndex : Nat) (inp : FrameInput) (s : Emu κ)
    (hlg : (s.lightgun_enabled && joyIndex == 0) = false)
    (hsw : s.wii_swap_buttons = false) :
    ((wii_atari_update_joystick P C K joyIndex inp s).keyboard_data
        (if joyIndex = 0 then 0 else 6) = 1 ↔
      (tst (inp.pad joyIndex).held P.WII_BUTTON_ATARI_RIGHT = true ∨
       tst (inp.pad joyIndex).gcHeld P.GC_BUTTON_ATARI_RIGHT = true ∨
       P.wii_analog_right (inp.pad joyIndex).expX (inp.pad joyIndex).gcX = true ∨
       P.wii_analog_right (dualAnalog C joyIndex inp).1 (dualAnalog C joyIndex inp).2.2.1
         = true)) ∧
    ((wii_atari_update_joystick P C K joyIndex inp s).keyboard_data
        (if joyIndex = 0 then 1 else 7) = 1 ↔
      (tst (inp.pad joyIndex).held P.WII_BUTTON_ATARI_LEFT = true ∨
       ((inp.pad joyIndex).expClassic = true ∧
         tst (inp.pad joyIndex).held P.WII_CLASSIC_ATARI_LEFT = true) ∨
       tst (inp.pad joyIndex).gcHeld P.GC_BUTTON_ATARI_LEFT = true ∨
       P.wii_analog_left (inp.pad joyIndex).expX (inp.pad joyIndex).gcX = true ∨
       P.wii_analog_left (dualAnalog C joyIndex inp).1 (dualAnalog C joyIndex inp).2.2.1
         = true)) ∧
    ((wii_atari_update_joystick P C K joyIndex inp s).keyboard_data
        (if joyIndex = 0 then 2 else 8) = 1 ↔
      (tst (inp.pad joyIndex).held P.WII_BUTTON_ATARI_DOWN = true ∨
       tst (inp.pad joyIndex).gcHeld P.GC_BUTTON_ATARI_DOWN = true ∨
       P.wii_analog_down (inp.pad joyIndex).expY (inp.pad joyIndex).gcY = true ∨
       P.wii_analog_down (dualAnalog C joyIndex inp).2.1 (dualAnalog C joyIndex inp).2.2.2
         = true)) ∧
    ((wii_atari_update_joystick P C K joyIndex inp s).keyboard_data
        (if joyIndex = 0 then 3 else 9) = 1 ↔
      (tst (inp.pad joyIndex).held P.WII_BUTTON_ATARI_UP = true ∨
       ((inp.pad joyIndex).expClassic = true ∧
         tst (inp.pad joyIndex).held P.WII_CLASSIC_ATARI_UP = true) ∨
       tst (inp.pad joyIndex).gcHeld P.GC_BUTTON_ATARI_UP = true ∨
       P.wii_analog_up (inp.pad joyIndex).expY (inp.pad joyIndex).gcY = true ∨
       P.wii_analog_up (dualAnalog C joyIndex inp).2.1 (dualAnalog C joyIndex inp).2.2.2
         = true)) ∧
    ((wii_atari_update_joystick P C K joyIndex inp s).keyboard_data
        (if joyIndex = 0 then 4 else 10) = 1 ↔
      (tst (inp.pad joyIndex).held P.WII_BUTTON_ATARI_FIRE_2 = true ∨
       tst (inp.pad joyIndex).held
         (if (inp.pad joyIndex).expClassic then P.WII_CLASSIC_ATARI_FIRE_2
          else P.WII_NUNCHECK_ATARI_FIRE_2) = true ∨
       tst (inp.pad joyIndex).gcHeld P.GC_BUTTON_ATARI_FIRE_2 = true)) ∧
    ((wii_atari_update_joystick P C K joyIndex inp s).keyboard_data
        (if joyIndex = 0 then 5 else 11) = 1 ↔
      (tst (inp.pad joyIndex).held P.WII_BUTTON_ATARI_FIRE = true ∨
       tst (inp.pad joyIndex).held
         (if (inp.pad joyIndex).expClassic then P.WII_CLASSIC_ATARI_FIRE
          else P.WII_NUNCHECK_ATARI_FIRE) = true ∨
       tst (inp.pad joyIndex).gcHeld P.GC_BUTTON_ATARI_FIRE = true)) := by
  have hk := fun (j : Fin 19) (hj : j.val < 12) =>
    update_joystick_plain_kbd P C K joyIndex inp s hlg j hj
  have e0 : ((0 : Fin 19) : Nat) = 0 := rfl
  have e1 : ((1 : Fin 19) : Nat) = 1 := rfl
  have e2 : ((2 : Fin 19) : Nat) = 2 := rfl
  have e3 : ((3 : Fin 19) : Nat) = 3 := rfl
  have e4 : ((4 : Fin 19) : Nat) = 4 := rfl
  have e5 : ((5 : Fin 19) : Nat) = 5 := rfl
  have e6 : ((6 : Fin 19) : Nat) = 6 := rfl
  have e7 : ((7 : Fin 19) : Nat) = 7 := rfl
  have e8 : ((8 : Fin 19) : Nat) = 8 := rfl
  have e9 : ((9 : Fin 19) : Nat) = 9 := rfl
  have e10 : ((10 : Fin 19) : Nat) = 10 := rfl
  have e11 : ((11 : Fin 19) : Nat) = 11 := rfl
  by_cases h0 : joyIndex = 0
  · subst h0
    simp only [if_true]
    rw [hk 0 (by decide), hk 1 (by decide), hk 2 (by decide), hk 3 (by decide),
      hk 4 (by decide), hk 5 (by decide)]
    simp only [joystickBranch_kbd, hsw, portOffset, if_true, e0, e1, e2, e3, e4, e5]
    refine ⟨?_, ?_, ?_, ?_, ?_, ?_⟩
    · simp [b2u_eq_one, rightBit, or_assoc]
    · cases hc : (inp.pad 0).expClassic <;>
        simp [b2u_eq_one, leftBit, tst_lor, tst_zero, hc, or_assoc]
    · simp [b2u_eq_one, downBit, or_assoc]
    · cases hc : (inp.pad 0).expClassic <;>
        simp [b2u_eq_one, upBit, tst_lor, tst_zero, hc, or_assoc]
    · simp [b2u_eq_one, fire2Bit, tst_lor, or_assoc]
    · simp [b2u_eq_one, fireBit, tst_lor, or_assoc]
  · simp only [h0, if_false]
    rw [hk 6 (by decide), hk 7 (by decide), hk 8 (by decide), hk 9 (by decide),
      hk 10 (by decide), hk 11 (by decide)]
    simp only [joystickBranch_kbd, hsw, portOffset, h0, if_false, e6, e7, e8, e9, e10, e11]
    refine ⟨?_, ?_, ?_, ?_, ?_, ?_⟩
    · simp [b2u_eq_one, rightBit, or_assoc]
    · cases hc : (inp.pad joyIndex).expClassic <;>
        simp [b2u_eq_one, leftBit, tst_lor, tst_zero, hc, or_assoc]
    · simp [b2u_eq_one, downBit, or_assoc]
    · cases hc : (inp.pad joyIndex).expClassic <;>
        simp [b2u_eq_one, upBit, tst_lor, tst_zero, hc, or_assoc]
    · simp [b2u_eq_one, fire2Bit, tst_lor, or_assoc]
    · simp [b2u_eq_one, fireBit, tst_lor, or_assoc]

end Layout

section Reset

/-- Truncation of a non-negative quotient of integers is the integer quotient. -/
theorem cTrunc_natCast_mul (n : Nat) :
    cTrunc ((n : ℚ) * (3 / 4)) = ((3 * n / 4 : Nat) : Int) := by
  have hq : (n : ℚ) * (3 / 4) = (((3 * n : Nat) : Int) : ℚ) / ((4 : Nat) : ℚ) := by
    push_cast; ring
  have hnn : (0 : ℚ) ≤ (n : ℚ) * (3 / 4) := by positivity
  have hnum : 0 ≤ ((n : ℚ) * (3 / 4)).num := Rat.num_nonneg.mpr hnn
  unfold cTrunc
  rw [Int.tdiv_eq_ediv hnum (Int.natCast_nonneg _), ← Rat.floor_def, hq,
    Rat.floor_intCast_div_natCast]
  push_cast
  rfl

end Reset

section Exit

variable (P : Plat) (C : Cart) (K : Core κ)

theorem lightgunBranch_trace (held : Nat) (s : Emu κ) :
    (lightgunBranch P C held s).trace = s.trace := by
  unfold lightgunBranch
  simp only []
  split_ifs <;> rfl

theorem leftDifficulty_trace (lg : Bool) (p : Pad) (s : Emu κ) :
    (leftDifficulty P C lg p s).trace = s.trace := by
  unfold leftDifficulty
  split_ifs <;> rfl

theorem rightDifficulty_trace (lg : Bool) (p : Pad) (s : Emu κ) :
    (rightDifficulty P C lg p s).trace = s.trace := by
  unfold rightDifficulty
  split_ifs <;> rfl

/-- The console part records nothing but a possible pause request. -/
theorem consoleBranch_trace (lg : Bool) (inp : FrameInput) (s : Emu κ) :
    (consoleBranch P C K lg inp s).trace = s.trace ∨
    (consoleBranch P C K lg inp s).trace = s.trace ++ [Event.pause true] := by
  obtain ⟨t, ht, ht2⟩ := consoleBranch_cases P C K lg inp s
  have htr : t.trace = s.trace := by
    rcases ht2 with h | h
    · rw [h]; rfl
    · rw [h, rightDifficulty_trace, leftDifficulty_trace]; rfl
  rcases ht with h | h
  · left; rw [h, htr]
  · right; rw [h, ← htr]; rfl

/-- A call of `wii_atari_update_joystick` records nothing but a possible pause request. -/
theorem update_joystick_trace (joyIndex : Nat) (inp : FrameInput) (s : Emu κ) :
    (wii_atari_update_joystick P C K joyIndex inp s).trace = s.trace ∨
    (wii_atari_update_joystick P C K joyIndex inp s).trace = s.trace ++ [Event.pause true] := by
  by_cases h0 : joyIndex = 0
  · subst h0
    rw [update_joystick_zero]
    have hb : (if s.lightgun_enabled then lightgunBranch P C (inp.pad 0).held s
        else joystickBranch P C 0 inp s).trace = s.trace := by
      split
      · exact lightgunBranch_trace P C _ s
      · rfl
    rcases consoleBranch_trace P C K s.lightgun_enabled inp _ with h | h
    · left; rw [h, hb]
    · right; rw [h, hb]
  · left
    rw [update_joystick_other P C K joyIndex h0]
    rfl

/-- A call of `wii_atari_update_keys` never records `cartridge_SaveHighScoreSram`. -/
theorem update_keys_trace (inp : FrameInput) (s : Emu κ) :
    ∃ evs, (wii_atari_update_keys P C K inp s).trace = s.trace ++ evs ∧
      Event.saveHighScoreSram ∉ evs := by
  unfold wii_atari_update_keys
  simp only []
  set s0 : Emu κ := { s with polls := s.polls + 1, trace := s.trace ++ [Event.scanPads] }
    with hs0
  set s1 : Emu κ := (if s0.lightgun_enabled then wii_atari_update_wiimote_ir inp s0 else s0)
    with hs1
  have h1 : s1.trace = s.trace ++ [Event.scanPads] := by
    rw [hs1]
    split
    · unfold wii_atari_update_wiimote_ir; split <;> rfl
    · rfl
  rcases update_joystick_trace P C K 0 inp s1 with ha | ha <;>
    rcases update_joystick_trace P C K 1 inp (wii_atari_update_joystick P C K 0 inp s1)
      with hb | hb
  · exact ⟨[Event.scanPads], by rw [hb, ha, h1], by decide⟩
  · exact ⟨[Event.scanPads, Event.pause true], by rw [hb, ha, h1]; simp, by decide⟩
  · exact ⟨[Event.scanPads, Event.pause true], by rw [hb, ha, h1]; simp, by decide⟩
  · exact ⟨[Event.scanPads, Event.pause true, Event.pause true],
      by rw [hb, ha, h1]; simp, by decide⟩

/-- The flip is the last thing `wii_atari_refresh_screen` does, and the only thing
that depends on `testframes`. -/
theorem refresh_screen_flip (sync : Bool) (testframes : Int) (s : Emu κ) :
    (wii_atari_refresh_screen sync testframes s).trace =
      (wii_atari_refresh_screen sync 0 s).trace ++
        (if testframes < 0 then [Event.flip] else []) ∧
    (wii_atari_refresh_screen sync testframes s).core =
      (wii_atari_refresh_screen sync 0 s).core := by
  unfold wii_atari_refresh_screen
  simp only [lt_self_iff_false, if_false]
  split
  · exact ⟨rfl, rfl⟩
  · exact ⟨by simp, rfl⟩

/-- A call of `wii_atari_refresh_screen` never records `cartridge_SaveHighScoreSram`. -/
theorem refresh_screen_trace (sync : Bool) (testframes : Int) (s : Emu κ) :
    ∃ evs, (wii_atari_refresh_screen sync testframes s).trace = s.trace ++ evs ∧
      Event.saveHighScoreSram ∉ evs := by
  obtain ⟨_, _, _, evs, h4, h5⟩ := refresh_screen_fast sync 0 (le_refl 0) s
  obtain ⟨f1, _⟩ := refresh_screen_flip sync testframes s
  refine ⟨evs ++ (if testframes < 0 then [Event.flip] else []), ?_, ?_⟩
  · rw [f1, h4, List.append_assoc]
  · intro hmem
    rw [List.mem_append] at hmem
    rcases hmem with hmem | hmem
    · have := h5 _ hmem
      simp [Event.isVideo] at this
    · split at hmem <;> simp at hmem

/-- Prefixing a run with calls other than `cartridge_SaveHighScoreSram` keeps its
exit shape; the bound on `testframes` may be weakened by one. -/
theorem exitShape_extend (tf tf2 : Int) (htf : 0 ≤ tf2 → 0 ≤ tf) (s t s1 : Emu κ)
    (evs : List Event) (ht : t.trace = s.trace ++ evs)
    (hs : Event.saveHighScoreSram ∉ evs) (h : exitShape K tf2 t s1) :
    exitShape K tf s s1 := by
  rcases h with ⟨pre, h1, h2, h3⟩ | ⟨h0, pre, h1, h2, h3⟩
  · left
    refine ⟨evs ++ pre, ?_, ?_, h3⟩
    · rw [h1, ht]; simp
    · intro hmem
      rw [List.mem_append] at hmem
      rcases hmem with hmem | hmem
      · exact hs hmem
      · exact h2 hmem
  · right
    refine ⟨htf h0, evs ++ pre, ?_, ?_, ?_⟩
    · rw [h1, ht]; simp
    · intro hmem
      rw [List.mem_append] at hmem
      rcases hmem with hmem | hmem
      · exact hs hmem
      · exact h2 hmem
    · exact List.mem_append_right _ h3

end Exit

section ExitLoop

variable (P : Plat) (C : Cart) (K : Core κ)

/-- Every run of the loop that ends has one of the two exit shapes. -/
theorem mainLoopBody_exit (inp : Nat → FrameInput) :
    ∀ (fuel : Nat) (tf : Int) (s s1 : Emu κ),
      mainLoopBody P C K inp fuel tf s = some s1 → exitShape K tf s s1 := by
  intro fuel
  induction fuel with
  | zero =>
    intro tf s s1 h
    simp [mainLoopBody] at h
  | succ n ih =>
    intro tf s s1 h
    rw [mainLoopBody] at h
    by_cases hp : K.prosystem_paused s.core = true
    · rw [if_pos hp] at h
      have e := Option.some.inj h
      left
      refine ⟨[], ?_, by simp, ?_⟩
      · rw [← e]; simp
      · rw [← e]; exact hp
    · rw [if_neg hp] at h
      simp only [] at h
      set sa : Emu κ :=
        (if tf < 0 then
          { wii_atari_update_keys P C K (inp s.polls) s with wii_testframe := false }
        else { s with wii_testframe := true }) with hsa
      have ha : ∃ e1, sa.trace = s.trace ++ e1 ∧ Event.saveHighScoreSram ∉ e1 := by
        rw [hsa]
        split
        · exact update_keys_trace P C K (inp s.polls) s
        · exact ⟨[], by simp, by simp⟩
      obtain ⟨e1, ha1, ha2⟩ := ha
      by_cases hact : (K.prosystem_active sa.core && !K.prosystem_paused sa.core) = true
      · rw [if_pos hact] at h
        set s2 : Emu κ :=
          { sa with
            core := K.prosystem_ExecuteFrame sa.core sa.keyboard_data
            trace := sa.trace ++ [Event.executeFrame] } with hs2
        obtain ⟨e3, hr1, hr2⟩ := refresh_screen_trace true tf s2
        set s3 : Emu κ := wii_atari_refresh_screen true tf s2 with hs3
        set s4 : Emu κ :=
          (if tf < 0 then { s3 with trace := s3.trace ++ [Event.soundStore] } else s3)
          with hs4
        have h4 : ∃ e4, s4.trace = s3.trace ++ e4 ∧ Event.saveHighScoreSram ∉ e4 := by
          rw [hs4]
          split
          · exact ⟨[Event.soundStore], rfl, by decide⟩
          · exact ⟨[], by simp, by simp⟩
        obtain ⟨e4, h41, h42⟩ := h4
        have htr : s4.trace = s.trace ++ (e1 ++ [Event.executeFrame] ++ e3 ++ e4) := by
          rw [h41, hr1, hs2]
          simp only [List.append_assoc]
          rw [ha1]
          simp
        have hns : Event.saveHighScoreSram ∉ e1 ++ [Event.executeFrame] ++ e3 ++ e4 := by
          intro hmem
          simp only [List.mem_append, List.mem_singleton] at hmem
          rcases hmem with ((hmem | hmem) | hmem) | hmem
          · exact ha2 hmem
          · exact absurd hmem (by decide)
          · exact hr2 hmem
          · exact h42 hmem
        have hex : Event.executeFrame ∈ e1 ++ [Event.executeFrame] ++ e3 ++ e4 := by
          simp
        by_cases hgt : tf > 0
        · rw [if_pos hgt] at h
          exact exitShape_extend K tf (tf - 1) (fun _ => le_of_lt hgt) s s4 s1 _ htr hns
            (ih (tf - 1) s4 s1 h)
        · rw [if_neg hgt] at h
          by_cases hz : tf = 0
          · rw [if_pos hz] at h
            have e := Option.some.inj h
            right
            refine ⟨le_of_eq hz.symm, _, ?_, hns, hex⟩
            rw [← e]; exact htr
          · rw [if_neg hz] at h
            exact exitShape_extend K tf tf id s s4 s1 _ htr hns (ih tf s4 s1 h)
      · rw [if_neg hact] at h
        exact exitShape_extend K tf tf id s sa s1 e1 ha1 ha2 (ih tf sa s1 h)

end ExitLoop

section Float

theorem roundEven_cases (r : ℚ) : roundEven r = ⌊r⌋ ∨ roundEven r = ⌊r⌋ + 1 := by
  unfold roundEven
  simp only []
  split_ifs <;> simp

theorem roundEven_sub_le (r : ℚ) : |(roundEven r : ℚ) - r| ≤ 1 / 2 := by
  have h1 : (⌊r⌋ : ℚ) ≤ r := Int.floor_le r
  have h2 : r < (⌊r⌋ : ℚ) + 1 := Int.lt_floor_add_one r
  unfold roundEven
  simp only []
  rw [abs_le]
  split_ifs with a b c
  · constructor <;> linarith
  · push_cast; constructor <;> linarith
  · have : r - ⌊r⌋ = 1 / 2 := le_antisymm (not_lt.mp b) (not_lt.mp a)
    constructor <;> linarith
  · have : r - ⌊r⌋ = 1 / 2 := le_antisymm (not_lt.mp b) (not_lt.mp a)
    push_cast; constructor <;> linarith

theorem roundEven_eq_of_lt (r : ℚ) (M : ℤ) (h : |r - M| < 1 / 2) : roundEven r = M := by
  have hb := roundEven_sub_le r
  rw [abs_lt] at h
  rw [abs_le] at hb
  have h1 : ((roundEven r - M : ℤ) : ℚ) < 1 := by push_cast; linarith [hb.1, hb.2, h.1, h.2]
  have h2 : (-1 : ℚ) < ((roundEven r - M : ℤ) : ℚ) := by
    push_cast; linarith [hb.1, hb.2, h.1, h.2]
  have h3 : roundEven r - M < 1 := by exact_mod_cast h1
  have h4 : -1 < roundEven r - M := by exact_mod_cast h2
  omega

theorem roundEven_le_of_le (r : ℚ) (N : ℤ) (h : r ≤ N) : roundEven r ≤ N := by
  by_cases hf : ⌊r⌋ + 1 ≤ N
  · rcases roundEven_cases r with e | e <;> rw [e] <;> omega
  · have hfl : ⌊r⌋ ≤ N := by
      have : (⌊r⌋ : ℚ) ≤ (N : ℚ) := le_trans (Int.floor_le r) h
      exact_mod_cast this
    have hN : N = ⌊r⌋ := by omega
    have hr : r = N := le_antisymm h (by rw [hN]; exact Int.floor_le r)
    have : roundEven r = N := roundEven_eq_of_lt r N (by rw [hr]; simp)
    omega

theorem le_roundEven (r : ℚ) (N : ℤ) (h : (N : ℚ) ≤ r) : N ≤ roundEven r := by
  have hfl : N ≤ ⌊r⌋ := Int.le_floor.mpr h
  rcases roundEven_cases r with e | e <;> rw [e] <;> omega


theorem two_zpow_pos (z : ℤ) : (0 : ℚ) < (2 : ℚ) ^ z := zpow_pos (by norm_num) z

theorem two_zpow_24 : (2 : ℚ) ^ (24 : ℤ) = 16777216 := by norm_num

theorem two_zpow_23 : (2 : ℚ) ^ (23 : ℤ) = 8388608 := by norm_num

theorem natCast_lt_two_zpow_24 (n : ℕ) (hn : n < 2 ^ 24) : (n : ℚ) < (2 : ℚ) ^ (24 : ℤ) := by
  rw [two_zpow_24]
  have : n < 16777216 := by simpa using hn
  exact_mod_cast this

theorem f32_zero : f32 0 = 0 := by
  unfold f32
  simp

theorem f32_neg (q : ℚ) : f32 (-q) = -f32 q := by
  unfold f32
  by_cases h0 : q = 0
  · simp [h0]
  · have h0n : -q ≠ 0 := neg_ne_zero.mpr h0
    rw [if_neg h0, if_neg h0n]
    simp only [abs_neg, neg_neg]
    rcases lt_or_gt_of_ne h0 with h | h
    · have hn : 0 < -q := neg_pos.mpr h
      rw [if_pos hn, if_neg (not_lt.mpr h.le)]
      simp
    · have hn : ¬ 0 < -q := not_lt.mpr (neg_nonpos.mpr h.le)
      rw [if_neg hn, if_pos h]

/-- For a positive value the result is a multiple of the unit in the last place. -/
theorem f32_of_pos (q : ℚ) (h : 0 < q) :
    f32 q = (roundEven (q / (2 : ℚ) ^ (Int.log 2 q - 23)) : ℚ) * (2 : ℚ) ^ (Int.log 2 q - 23) := by
  unfold f32
  rw [if_neg (ne_of_gt h)]
  simp only [abs_of_pos h, if_pos h]

theorem log_two_eq (q : ℚ) (e : ℤ) (h1 : (2 : ℚ) ^ e ≤ q) (h2 : q < (2 : ℚ) ^ (e + 1)) :
    Int.log 2 q = e := by
  have hq : 0 < q := lt_of_lt_of_le (two_zpow_pos e) h1
  have a : e ≤ Int.log 2 q :=
    (Int.zpow_le_iff_le_log (by norm_num) hq).mp (by simpa using h1)
  have b : Int.log 2 q < e + 1 :=
    (Int.lt_zpow_iff_log_lt (by norm_num) hq).mp (by simpa using h2)
  omega

theorem two_zpow_log_le (q : ℚ) (h : 0 < q) : (2 : ℚ) ^ Int.log 2 q ≤ q := by
  simpa using Int.zpow_log_le_self (b := 2) (by norm_num) h

theorem log_two_lt (q : ℚ) (h : 0 < q) (z : ℤ) (hz : q < (2 : ℚ) ^ z) : Int.log 2 q < z :=
  (Int.lt_zpow_iff_log_lt (by norm_num) h).mp (by simpa using hz)

/-- Evaluation of the rounding from a certificate: the binade of `q` and the
integer significand nearest to it. -/
theorem f32_eval (q : ℚ) (e M : ℤ) (h1 : (2 : ℚ) ^ e ≤ q) (h2 : q < (2 : ℚ) ^ (e + 1))
    (h3 : |q / (2 : ℚ) ^ (e - 23) - M| < 1 / 2) : f32 q = (M : ℚ) * (2 : ℚ) ^ (e - 23) := by
  have hq : 0 < q := lt_of_lt_of_le (two_zpow_pos e) h1
  rw [f32_of_pos q hq, log_two_eq q e h1 h2, roundEven_eq_of_lt _ M h3]

theorem f32_nonneg (q : ℚ) (h : 0 ≤ q) : 0 ≤ f32 q := by
  rcases eq_or_lt_of_le h with h0 | hp
  · rw [← h0, f32_zero]
  · rw [f32_of_pos q hp]
    have hr : (0 : ℤ) ≤ roundEven (q / (2 : ℚ) ^ (Int.log 2 q - 23)) :=
      le_roundEven _ 0 (by
        push_cast
        exact div_nonneg h (two_zpow_pos _).le)
    exact mul_nonneg (by exact_mod_cast hr) (two_zpow_pos _).le

theorem f32_nonpos (q : ℚ) (h : q ≤ 0) : f32 q ≤ 0 := by
  have := f32_nonneg (-q) (neg_nonneg.mpr h)
  rw [f32_neg] at this
  linarith

/-- Rounding does not cross an integer below `2 ^ 24` from below. -/
theorem f32_le_nat (q : ℚ) (n : ℕ) (hn : n < 2 ^ 24) (h : q ≤ (n : ℚ)) : f32 q ≤ (n : ℚ) := by
  rcases le_or_lt q 0 with h0 | hp
  · exact le_trans (f32_nonpos q h0) (Nat.cast_nonneg n)
  · have hlt : q < (2 : ℚ) ^ (24 : ℤ) := by
      exact lt_of_le_of_lt h (natCast_lt_two_zpow_24 n hn)
    have he : Int.log 2 q < 24 := log_two_lt q hp 24 hlt
    obtain ⟨k, hk⟩ : ∃ k : ℕ, (k : ℤ) = 23 - Int.log 2 q := ⟨(23 - Int.log 2 q).toNat, by omega⟩
    have hu : (2 : ℚ) ^ (Int.log 2 q - 23) = ((2 : ℚ) ^ k)⁻¹ := by
      have : Int.log 2 q - 23 = -(k : ℤ) := by omega
      rw [this, zpow_neg, zpow_natCast]
    rw [f32_of_pos q hp, hu]
    have hk2 : (0 : ℚ) < (2 : ℚ) ^ k := pow_pos (by norm_num) k
    have hr : roundEven (q / ((2 : ℚ) ^ k)⁻¹) ≤ ((n * 2 ^ k : ℕ) : ℤ) :=
      roundEven_le_of_le _ _ (by
        push_cast
        rw [div_inv_eq_mul]
        exact mul_le_mul_of_nonneg_right h hk2.le)
    have hr2 : (roundEven (q / ((2 : ℚ) ^ k)⁻¹) : ℚ) ≤ (n : ℚ) * (2 : ℚ) ^ k := by
      exact_mod_cast hr
    calc (roundEven (q / ((2 : ℚ) ^ k)⁻¹) : ℚ) * ((2 : ℚ) ^ k)⁻¹
        ≤ ((n : ℚ) * (2 : ℚ) ^ k) * ((2 : ℚ) ^ k)⁻¹ :=
          mul_le_mul_of_nonneg_right hr2 (inv_nonneg.mpr hk2.le)
      _ = (n : ℚ) := by field_simp

/-- Rounding does not cross an integer below `2 ^ 24` from above. -/
theorem nat_le_f32 (q : ℚ) (n : ℕ) (hn : n < 2 ^ 24) (h : (n : ℚ) ≤ q) : (n : ℚ) ≤ f32 q := by
  rcases Nat.eq_zero_or_pos n with h0 | hnpos
  · subst h0
    simpa using f32_nonneg q (by simpa using h)
  · have hp : 0 < q := lt_of_lt_of_le (by exact_mod_cast hnpos) h
    rw [f32_of_pos q hp]
    rcases lt_or_le (Int.log 2 q) 24 with he | he
    · obtain ⟨k, hk⟩ : ∃ k : ℕ, (k : ℤ) = 23 - Int.log 2 q :=
        ⟨(23 - Int.log 2 q).toNat, by omega⟩
      have hu : (2 : ℚ) ^ (Int.log 2 q - 23) = ((2 : ℚ) ^ k)⁻¹ := by
        have : Int.log 2 q - 23 = -(k : ℤ) := by omega
        rw [this, zpow_neg, zpow_natCast]
      rw [hu]
      have hk2 : (0 : ℚ) < (2 : ℚ) ^ k := pow_pos (by norm_num) k
      have hr : ((n * 2 ^ k : ℕ) : ℤ) ≤ roundEven (q / ((2 : ℚ) ^ k)⁻¹) :=
        le_roundEven _ _ (by
          push_cast
          rw [div_inv_eq_mul]
          exact mul_le_mul_of_nonneg_right h hk2.le)
      have hr2 : (n : ℚ) * (2 : ℚ) ^ k ≤ (roundEven (q / ((2 : ℚ) ^ k)⁻¹) : ℚ) := by
        exact_mod_cast hr
      calc (n : ℚ) = ((n : ℚ) * (2 : ℚ) ^ k) * ((2 : ℚ) ^ k)⁻¹ := by field_simp
        _ ≤ (roundEven (q / ((2 : ℚ) ^ k)⁻¹) : ℚ) * ((2 : ℚ) ^ k)⁻¹ :=
          mul_le_mul_of_nonneg_right hr2 (inv_nonneg.mpr hk2.le)
    · have hu := two_zpow_pos (Int.log 2 q - 23)
      have hle := two_zpow_log_le q hp
      have hsplit : (2 : ℚ) ^ Int.log 2 q = (2 : ℚ) ^ (23 : ℤ) * (2 : ℚ) ^ (Int.log 2 q - 23) := by
        rw [← zpow_add₀ (by norm_num : (2 : ℚ) ≠ 0)]
        congr 1
        omega
      have hr : (8388608 : ℤ) ≤ roundEven (q / (2 : ℚ) ^ (Int.log 2 q - 23)) :=
        le_roundEven _ _ (by
          push_cast
          rw [le_div_iff₀ hu, ← two_zpow_23, ← hsplit]
          exact hle)
      have hr2 : (2 : ℚ) ^ (23 : ℤ) ≤ (roundEven (q / (2 : ℚ) ^ (Int.log 2 q - 23)) : ℚ) := by
        rw [two_zpow_23]
        exact_mod_cast hr
      have h24 : (2 : ℚ) ^ (24 : ℤ) ≤ (2 : ℚ) ^ Int.log 2 q :=
        zpow_le_zpow_right₀ (by norm_num) he
      have hn24 : (n : ℚ) < (2 : ℚ) ^ (24 : ℤ) := natCast_lt_two_zpow_24 n hn
      calc (n : ℚ) ≤ (2 : ℚ) ^ Int.log 2 q := le_trans hn24.le h24
        _ = (2 : ℚ) ^ (23 : ℤ) * (2 : ℚ) ^ (Int.log 2 q - 23) := hsplit
        _ ≤ _ := mul_le_mul_of_nonneg_right hr2 hu.le

/-- Integers below `2 ^ 24` are represented exactly. -/
theorem f32_natCast (n : ℕ) (hn : n < 2 ^ 24) : f32 (n : ℚ) = (n : ℚ) :=
  le_antisymm (f32_le_nat _ n hn le_rfl) (nat_le_f32 _ n hn le_rfl)

/-- Relative error of the rounding, upper side. -/
theorem f32_le_rel (t : ℚ) (ht : 0 < t) : f32 t ≤ t * (1 + 1 / 2 ^ 24) := by
  rw [f32_of_pos t ht]
  have hu := two_zpow_pos (Int.log 2 t - 23)
  have hb := roundEven_sub_le (t / (2 : ℚ) ^ (Int.log 2 t - 23))
  rw [abs_le] at hb
  have hle := two_zpow_log_le t ht
  have hsplit : (2 : ℚ) ^ Int.log 2 t = (2 : ℚ) ^ (23 : ℤ) * (2 : ℚ) ^ (Int.log 2 t - 23) := by
    rw [← zpow_add₀ (by norm_num : (2 : ℚ) ≠ 0)]
    congr 1
    omega
  have hulp : (2 : ℚ) ^ (Int.log 2 t - 23) ≤ t / 8388608 := by
    rw [le_div_iff₀ (by norm_num : (0 : ℚ) < 8388608)]
    rw [hsplit, two_zpow_23] at hle
    linarith
  have h1 : (roundEven (t / (2 : ℚ) ^ (Int.log 2 t - 23)) : ℚ) * (2 : ℚ) ^ (Int.log 2 t - 23)
      ≤ (t / (2 : ℚ) ^ (Int.log 2 t - 23) + 1 / 2) * (2 : ℚ) ^ (Int.log 2 t - 23) :=
    mul_le_mul_of_nonneg_right (by linarith [hb.2]) hu.le
  have h2 : (t / (2 : ℚ) ^ (Int.log 2 t - 23) + 1 / 2) * (2 : ℚ) ^ (Int.log 2 t - 23)
      = t + (2 : ℚ) ^ (Int.log 2 t - 23) / 2 := by
    field_simp
    ring
  rw [h2] at h1
  have h3 : (2 : ℚ) ^ (Int.log 2 t - 23) / 2 ≤ t * (1 / 2 ^ 24) := by
    have : t / 8388608 / 2 = t * (1 / 2 ^ 24) := by ring
    rw [← this]
    exact div_le_div_of_nonneg_right hulp (by norm_num)
  linarith

/-- A value with a significand below `2 ^ 24` is represented exactly. -/
theorem f32_repr (m j : ℕ) (hm : m < 2 ^ 24) :
    f32 ((m : ℚ) / (2 : ℚ) ^ j) = (m : ℚ) / (2 : ℚ) ^ j := by
  rcases Nat.eq_zero_or_pos m with h0 | hpos
  · subst h0
    simp [f32_zero]
  · have hj : (0 : ℚ) < (2 : ℚ) ^ j := pow_pos (by norm_num) j
    have hq : (0 : ℚ) < (m : ℚ) / (2 : ℚ) ^ j := div_pos (by exact_mod_cast hpos) hj
    have hlt : (m : ℚ) / (2 : ℚ) ^ j < (2 : ℚ) ^ ((24 : ℤ) - j) := by
      rw [zpow_sub₀ (by norm_num : (2 : ℚ) ≠ 0), zpow_natCast]
      exact div_lt_div_of_pos_right (natCast_lt_two_zpow_24 m hm) hj
    have he := log_two_lt _ hq _ hlt
    obtain ⟨i, hi⟩ : ∃ i : ℕ, (i : ℤ) = 23 - j - Int.log 2 ((m : ℚ) / (2 : ℚ) ^ j) :=
      ⟨(23 - j - Int.log 2 ((m : ℚ) / (2 : ℚ) ^ j)).toNat, by omega⟩
    have hu : (2 : ℚ) ^ (Int.log 2 ((m : ℚ) / (2 : ℚ) ^ j) - 23) = ((2 : ℚ) ^ (j + i))⁻¹ := by
      have : Int.log 2 ((m : ℚ) / (2 : ℚ) ^ j) - 23 = -((j + i : ℕ) : ℤ) := by
        push_cast; omega
      rw [this, zpow_neg, zpow_natCast]
    have hji : (0 : ℚ) < (2 : ℚ) ^ (j + i) := pow_pos (by norm_num) _
    have hquot : (m : ℚ) / (2 : ℚ) ^ j / ((2 : ℚ) ^ (j + i))⁻¹ = ((m * 2 ^ i : ℕ) : ℤ) := by
      push_cast
      rw [div_inv_eq_mul, pow_add]
      field_simp
      ring
    rw [f32_of_pos _ hq, hu, roundEven_eq_of_lt _ ((m * 2 ^ i : ℕ) : ℤ) (by rw [hquot]; simp)]
    push_cast
    rw [pow_add]
    field_simp
    ring

/-- Non-negative `int` values below `2 ^ 24` convert to `float` exactly. -/
theorem f32_intCast (z : ℤ) (h0 : 0 ≤ z) (h1 : z < 16777216) : f32 (z : ℚ) = (z : ℚ) := by
  obtain ⟨n, rfl⟩ := Int.eq_ofNat_of_zero_le h0
  have hn : n < 2 ^ 24 := by
    have : (n : ℤ) < 16777216 := h1
    norm_num
    exact_mod_cast this
  simpa using f32_natCast n hn

/-- The result of rounding a positive value below `2 ^ 24` is a fraction
`R / 2 ^ j` with `R ≤ 2 ^ 24`. -/
theorem f32_form (t : ℚ) (ht : 0 < t) (hlt : t < 16777216) :
    ∃ (R j : ℕ), R ≤ 2 ^ 24 ∧ f32 t = (R : ℚ) / (2 : ℚ) ^ j := by
  have he : Int.log 2 t < 24 := log_two_lt t ht 24 (by rw [two_zpow_24]; exact hlt)
  obtain ⟨j, hj⟩ : ∃ j : ℕ, (j : ℤ) = 23 - Int.log 2 t := ⟨(23 - Int.log 2 t).toNat, by omega⟩
  have hu : (2 : ℚ) ^ (Int.log 2 t - 23) = ((2 : ℚ) ^ j)⁻¹ := by
    have : Int.log 2 t - 23 = -(j : ℤ) := by omega
    rw [this, zpow_neg, zpow_natCast]
  have hj2 : (0 : ℚ) < (2 : ℚ) ^ j := pow_pos (by norm_num) j
  have hup : t < (2 : ℚ) ^ (Int.log 2 t + 1) := by
    simpa using Int.lt_zpow_succ_log_self (b := 2) (by norm_num) t
  have hsplit : (2 : ℚ) ^ (Int.log 2 t + 1) = (2 : ℚ) ^ (24 : ℤ) * (2 : ℚ) ^ (Int.log 2 t - 23) := by
    rw [← zpow_add₀ (by norm_num : (2 : ℚ) ≠ 0)]
    congr 1
    omega
  have hq : t / ((2 : ℚ) ^ j)⁻¹ ≤ ((16777216 : ℕ) : ℤ) := by
    push_cast
    rw [← hu, div_le_iff₀ (two_zpow_pos _), ← two_zpow_24, ← hsplit]
    exact hup.le
  have hR1 : roundEven (t / ((2 : ℚ) ^ j)⁻¹) ≤ ((16777216 : ℕ) : ℤ) := roundEven_le_of_le _ _ hq
  have hR0 : (0 : ℤ) ≤ roundEven (t / ((2 : ℚ) ^ j)⁻¹) :=
    le_roundEven _ 0 (by
      push_cast
      exact div_nonneg ht.le (inv_nonneg.mpr hj2.le))
  obtain ⟨R, hR⟩ := Int.eq_ofNat_of_zero_le hR0
  refine ⟨R, j, ?_, ?_⟩
  · have : (R : ℤ) ≤ 16777216 := by rw [← hR]; exact_mod_cast hR1
    norm_num
    exact_mod_cast this
  · rw [f32_of_pos t ht, hu, hR]
    push_cast
    rw [div_eq_mul_inv]

end Float

section FloatDemo

theorem f32_small_nat (n : ℕ) (hn : n < 16777216) : f32 (n : ℚ) = (n : ℚ) :=
  f32_natCast n (by norm_num; exact hn)

/-- The `float` quotient `318 / 640` is not exact. -/
theorem f32_xratio_demo : f32 (159 / 320) = 8336179 / 16777216 := by
  rw [f32_eval (159 / 320) (-2) 16672358 (by norm_num) (by norm_num)
    (by rw [abs_lt]; constructor <;> norm_num)]
  norm_num

theorem f32_prod_sentinel : f32 (208404475 / 4194304) = 795 / 16 := by
  rw [f32_eval (208404475 / 4194304) 5 13025280 (by norm_num) (by norm_num)
    (by rw [abs_lt]; constructor <;> norm_num)]
  norm_num

theorem f32_prod_edge : f32 (558523993 / 2097152) = 8726937 / 32768 := by
  rw [f32_eval (558523993 / 2097152) 8 8726937 (by norm_num) (by norm_num)
    (by rw [abs_lt]; constructor <;> norm_num)]
  norm_num

/-- The cycle computed on the sample host for pointer `x`, with the conversions of
the constants carried out. -/
theorem lgCycle0_demo (x : ℤ) :
    lgCycle0 demoPlat x = f32 (188 + f32 (f32 (x : ℚ) * (8336179 / 16777216))) := by
  have h1 : f32 ((LG_CYCLES_PER_SCANLINE : ℤ) : ℚ) = 318 := by
    rw [f32_intCast _ (by decide) (by decide)]; norm_num [LG_CYCLES_PER_SCANLINE]
  have h2 : f32 ((demoPlat.WII_WIDTH : ℤ) : ℚ) = 640 := by
    rw [f32_intCast _ (by decide) (by decide)]; norm_num [demoPlat]
  have h3 : f32 ((demoPlat.HBLANK_CYCLES + LG_CYCLES_INDENT : ℤ) : ℚ) = 188 := by
    rw [f32_intCast _ (by decide) (by decide)]; norm_num [demoPlat, LG_CYCLES_INDENT]
  unfold lgCycle0
  simp only []
  rw [h1, h2, h3, show (318 : ℚ) / 640 = 159 / 320 by norm_num, f32_xratio_demo]

theorem f32_cps_demo : f32 (demoPlat.CYCLES_PER_SCANLINE : ℚ) = 454 := by
  rw [f32_intCast _ (by decide) (by decide)]; norm_num [demoPlat]

theorem lgCycle0_demo_sentinel : lgCycle0 demoPlat (-100) = 2213 / 16 := by
  rw [lgCycle0_demo]
  have h4 : f32 (((-100 : ℤ) : ℚ)) = -100 := by
    have := f32_small_nat 100 (by norm_num)
    push_cast at this ⊢
    rw [f32_neg, this]
  rw [h4, show (-100 : ℚ) * (8336179 / 16777216) = -(208404475 / 4194304) by norm_num,
    f32_neg, f32_prod_sentinel, show (188 : ℚ) + -(795 / 16) = ((2213 : ℕ) : ℚ) / 2 ^ 4 by norm_num,
    f32_repr 2213 4 (by norm_num)]
  norm_num

theorem lgCycle0_demo_edge : lgCycle0 demoPlat 536 = 14887321 / 32768 := by
  rw [lgCycle0_demo]
  have h4 : f32 (((536 : ℤ) : ℚ)) = 536 := by
    have := f32_small_nat 536 (by norm_num)
    push_cast at this ⊢
    exact this
  rw [h4, show (536 : ℚ) * (8336179 / 16777216) = 558523993 / 2097152 by norm_num,
    f32_prod_edge,
    show (188 : ℚ) + 8726937 / 32768 = ((14887321 : ℕ) : ℚ) / 2 ^ 15 by norm_num,
    f32_repr 14887321 15 (by norm_num)]
  norm_num

theorem f32_wrap_edge : f32 (14887321 / 32768 - 454) = 10649 / 32768 := by
  rw [show (14887321 : ℚ) / 32768 - 454 = ((10649 : ℕ) : ℚ) / 2 ^ 15 by norm_num,
    f32_repr 10649 15 (by norm_num)]
  norm_num

end FloatDemo

section WrapBound

/-- The light-gun cycle on a host whose constants are small non-negative integers:
the product term does not exceed `LG_CYCLES_PER_SCANLINE`, the subtraction of the
wrap is exact, and the wrapped cycle stays below one scanline. -/
theorem lgCycle0_wrap_exact (P : Plat) (x : ℤ)
    (hx0 : 0 ≤ x) (hxW : x < P.WII_WIDTH) (hW : P.WII_WIDTH < 16777216)
    (hA : 0 ≤ P.HBLANK_CYCLES + LG_CYCLES_INDENT)
    (hK : P.CYCLES_PER_SCANLINE ≤ 8388608)
    (hS : P.HBLANK_CYCLES + LG_CYCLES_INDENT + LG_CYCLES_PER_SCANLINE
      < 2 * P.CYCLES_PER_SCANLINE)
    (hwrap : lgCycle0 P x > f32 (P.CYCLES_PER_SCANLINE : ℚ)) :
    f32 (lgCycle0 P x - f32 (P.CYCLES_PER_SCANLINE : ℚ))
      = lgCycle0 P x - (P.CYCLES_PER_SCANLINE : ℚ) ∧
    lgCycle0 P x - (P.CYCLES_PER_SCANLINE : ℚ) < (P.CYCLES_PER_SCANLINE : ℚ) := by
  have hLG : LG_CYCLES_PER_SCANLINE = 318 := rfl
  rw [hLG] at hS
  -- the constants as natural numbers
  obtain ⟨kn, hkn⟩ := Int.eq_ofNat_of_zero_le (show 0 ≤ P.CYCLES_PER_SCANLINE by omega)
  obtain ⟨an, han⟩ := Int.eq_ofNat_of_zero_le hA
  obtain ⟨wn, hwn⟩ := Int.eq_ofNat_of_zero_le (show 0 ≤ P.WII_WIDTH by omega)
  obtain ⟨xn, hxn⟩ := Int.eq_ofNat_of_zero_le hx0
  have hkn1 : 160 ≤ kn := by omega
  have hkn2 : kn ≤ 8388608 := by omega
  have han2 : an + 318 < 2 * kn := by omega
  have hxw : xn + 1 ≤ wn := by omega
  have hwn2 : wn < 16777216 := by omega
  -- exact conversions
  have h318 : f32 ((LG_CYCLES_PER_SCANLINE : ℤ) : ℚ) = 318 := by
    rw [f32_intCast _ (by decide) (by decide)]; norm_num [LG_CYCLES_PER_SCANLINE]
  have hfW : f32 ((P.WII_WIDTH : ℤ) : ℚ) = (wn : ℚ) := by
    rw [hwn]; push_cast; exact f32_small_nat wn hwn2
  have hfx : f32 ((x : ℤ) : ℚ) = (xn : ℚ) := by
    rw [hxn]; push_cast; exact f32_small_nat xn (by omega)
  have hfA : f32 ((P.HBLANK_CYCLES + LG_CYCLES_INDENT : ℤ) : ℚ) = (an : ℚ) := by
    rw [han]; push_cast; exact f32_small_nat an (by omega)
  have hfK : f32 ((P.CYCLES_PER_SCANLINE : ℤ) : ℚ) = (kn : ℚ) := by
    rw [hkn]; push_cast; exact f32_small_nat kn (by omega)
  have hKq : ((P.CYCLES_PER_SCANLINE : ℤ) : ℚ) = (kn : ℚ) := by rw [hkn]; push_cast; rfl
  -- the shape of the computed cycle
  have hc : lgCycle0 P x = f32 ((an : ℚ) + f32 ((xn : ℚ) * f32 (318 / (wn : ℚ)))) := by
    unfold lgCycle0
    simp only []
    rw [h318, hfW, hfx, hfA]
  rw [hfK] at hwrap ⊢
  rw [hKq]
  rw [hc] at hwrap ⊢
  -- the ratio and the product
  have hw0 : (0 : ℚ) < (wn : ℚ) := by
    have : 0 < wn := by omega
    exact_mod_cast this
  have hwq : (wn : ℚ) < 16777216 := by exact_mod_cast hwn2
  have hxq : (xn : ℚ) ≤ (wn : ℚ) - 1 := by
    have : ((xn + 1 : ℕ) : ℚ) ≤ (wn : ℚ) := by exact_mod_cast hxw
    push_cast at this
    linarith
  have hx0q : (0 : ℚ) ≤ (xn : ℚ) := Nat.cast_nonneg xn
  set r : ℚ := f32 (318 / (wn : ℚ)) with hr
  have hr0 : 0 ≤ r := f32_nonneg _ (div_nonneg (by norm_num) hw0.le)
  have hr1 : r ≤ 318 / (wn : ℚ) * (1 + 1 / 2 ^ 24) :=
    f32_le_rel _ (div_pos (by norm_num) hw0)
  have hxr : (xn : ℚ) * r ≤ 318 := by
    have h1 : (xn : ℚ) * r ≤ ((wn : ℚ) - 1) * r := mul_le_mul_of_nonneg_right hxq hr0
    have h2 : ((wn : ℚ) - 1) * r ≤ ((wn : ℚ) - 1) * (318 / (wn : ℚ) * (1 + 1 / 2 ^ 24)) :=
      mul_le_mul_of_nonneg_left hr1 (by linarith)
    have h3 : ((wn : ℚ) - 1) * (318 / (wn : ℚ) * (1 + 1 / 2 ^ 24))
        = 318 * (((wn : ℚ) - 1) * (1 + 1 / 2 ^ 24)) / (wn : ℚ) := by ring
    have h4 : 318 * (((wn : ℚ) - 1) * (1 + 1 / 2 ^ 24)) / (wn : ℚ) ≤ 318 := by
      rw [div_le_iff₀ hw0]
      have : ((wn : ℚ) - 1) * (1 + 1 / 2 ^ 24) ≤ (wn : ℚ) := by
        have e : ((wn : ℚ) - 1) * (1 + 1 / 2 ^ 24)
            = (wn : ℚ) - 1 + ((wn : ℚ) - 1) / 16777216 := by ring
        rw [e]
        linarith
      linarith
    linarith
  set p : ℚ := f32 ((xn : ℚ) * r) with hp
  have hp0 : 0 ≤ p := f32_nonneg _ (mul_nonneg hx0q hr0)
  have hp1 : p ≤ 318 := by
    have := f32_le_nat ((xn : ℚ) * r) 318 (by norm_num) (by push_cast; exact hxr)
    simpa using this
  set t : ℚ := (an : ℚ) + p with ht
  have ht0 : 0 ≤ t := add_nonneg (Nat.cast_nonneg an) hp0
  have htS : t ≤ ((an + 318 : ℕ) : ℚ) := by push_cast; linarith
  have hcS : f32 t ≤ ((an + 318 : ℕ) : ℚ) := f32_le_nat t (an + 318) (by norm_num; omega) htS
  have hkq0 : (0 : ℚ) ≤ (kn : ℚ) := Nat.cast_nonneg kn
  have htpos : 0 < t := by
    rcases eq_or_lt_of_le ht0 with h | h
    · rw [← h, f32_zero] at hwrap
      linarith
    · exact h
  have htlt : t < 16777216 := by
    have : ((an + 318 : ℕ) : ℚ) < 16777216 := by
      have : an + 318 < 16777216 := by omega
      exact_mod_cast this
    linarith
  obtain ⟨R, j, hR, hRj⟩ := f32_form t htpos htlt
  have hj : (0 : ℚ) < (2 : ℚ) ^ j := pow_pos (by norm_num) j
  -- the difference has a significand below 2 ^ 24
  have hgt : ((kn * 2 ^ j : ℕ) : ℚ) < (R : ℚ) := by
    rw [hRj, gt_iff_lt, lt_div_iff₀ hj] at hwrap
    push_cast
    exact hwrap
  have hgt2 : kn * 2 ^ j < R := by exact_mod_cast hgt
  have hpow : 1 ≤ 2 ^ j := Nat.one_le_two_pow
  have hprod : 160 ≤ kn * 2 ^ j := by nlinarith
  have hm : R - kn * 2 ^ j < 2 ^ 24 := by omega
  have hdiff : f32 t - (kn : ℚ) = ((R - kn * 2 ^ j : ℕ) : ℚ) / (2 : ℚ) ^ j := by
    rw [hRj, Nat.cast_sub hgt2.le]
    push_cast
    field_simp
    ring
  constructor
  · rw [hdiff]
    exact f32_repr _ j hm
  · have hsq : ((an + 318 : ℕ) : ℚ) < 2 * (kn : ℚ) := by exact_mod_cast han2
    linarith

end WrapBound



/-! ## The claims -/

/-- C1 (evaluation of the code): called with `testframes = 1` on a running core,
`wii_atari_main_loop` returns after two calls of `prosystem_ExecuteFrame`, not one:
the frame on which the counter reaches zero is followed by one more frame. -/
theorem main_loop_testframes_one_executes_two_frames :
    (wii_atari_main_loop demoPlat demoCart demoCore (fun _ => frameOf idlePad false 0 0)
        2 1 (demoEmu false false)).map (fun s => s.trace.count Event.executeFrame)
      = some 2 := by
  decide

/-- C2: difficulty debounce. With the switches enabled and the settle timer at 0,
a press of a difficulty switch that starts with the latch clear, stays active for
`1 + mids.length` port-0 frames and is then released for one frame flips the slot
of that switch (15 for left, 16 for right) exactly once: after the first frame and
after every later frame of the sequence the slot holds the negation of its
original value, and the latch is clear again at the end. -/
theorem difficulty_debounce_flips_once (P : Plat) (C : Cart) (K : Core κ) (s : Emu κ)
    (first : FrameInput) (mids : List FrameInput) (last : FrameInput)
    (hen : s.wii_diff_switch_enabled = true) (hw : s.diff_wait_count = 0) :
    (s.left_difficulty_down = false →
      leftDiffTrigger P s.lightgun_enabled (first.pad 0) = true →
      (∀ m ∈ mids, leftDiffTrigger P s.lightgun_enabled (m.pad 0) = true) →
      leftDiffTrigger P s.lightgun_enabled (last.pad 0) = false →
      lnot (s.keyboard_data 15) ≠ s.keyboard_data 15 ∧
      (∀ k, k ≤ mids.length →
        (runPort0 P C K (first :: mids.take k) s).keyboard_data 15
          = lnot (s.keyboard_data 15)) ∧
      (runPort0 P C K (first :: (mids ++ [last])) s).keyboard_data 15
        = lnot (s.keyboard_data 15) ∧
      (runPort0 P C K (first :: (mids ++ [last])) s).left_difficulty_down = false) ∧
    (s.right_difficulty_down = false →
      rightDiffTrigger P s.lightgun_enabled (first.pad 0) = true →
      (∀ m ∈ mids, rightDiffTrigger P s.lightgun_enabled (m.pad 0) = true) →
      rightDiffTrigger P s.lightgun_enabled (last.pad 0) = false →
      lnot (s.keyboard_data 16) ≠ s.keyboard_data 16 ∧
      (∀ k, k ≤ mids.length →
        (runPort0 P C K (first :: mids.take k) s).keyboard_data 16
          = lnot (s.keyboard_data 16)) ∧
      (runPort0 P C K (first :: (mids ++ [last])) s).keyboard_data 16
        = lnot (s.keyboard_data 16) ∧
      (runPort0 P C K (first :: (mids ++ [last])) s).right_difficulty_down = false) := by
  obtain ⟨a1, a2, a3, _, _, a6⟩ := update0_left P C K first s hen hw
  obtain ⟨_, _, b3⟩ := update0_right P C K first s hen hw
  set t := wii_atari_update_joystick P C K 0 first s with ht
  constructor
  · intro hd h1 hm hl
    obtain ⟨f1, f2⟩ := a6 h1 hd
    have hm2 : ∀ m ∈ mids, leftDiffTrigger P t.lightgun_enabled (m.pad 0) = true := by
      intro m hmem; rw [a3]; exact hm m hmem
    refine ⟨lnot_ne _, ?_, ?_⟩
    · intro k _
      obtain ⟨c1, _⟩ := held_left P C K (mids.take k) t a1 a2 f2
        (fun m hmem => hm2 m (List.mem_of_mem_take hmem))
      simp only [runPort0]
      rw [c1, f1]
    · obtain ⟨c1, c2, c3, c4, c5⟩ := held_left P C K mids t a1 a2 f2 hm2
      obtain ⟨_, _, _, d4, _⟩ := update0_left P C K last (runPort0 P C K mids t) c3 c4
      obtain ⟨e1, e2⟩ := d4 (by rw [c5, a3]; exact hl)
      simp only [runPort0, runPort0_append]
      exact ⟨by rw [e1, c1, f1], e2⟩
  · intro hd h1 hm hl
    obtain ⟨f1, f2⟩ := b3 h1 hd
    have hm2 : ∀ m ∈ mids, rightDiffTrigger P t.lightgun_enabled (m.pad 0) = true := by
      intro m hmem; rw [a3]; exact hm m hmem
    refine ⟨lnot_ne _, ?_, ?_⟩
    · intro k _
      obtain ⟨c1, _⟩ := held_right P C K (mids.take k) t a1 a2 f2
        (fun m hmem => hm2 m (List.mem_of_mem_take hmem))
      simp only [runPort0]
      rw [c1, f1]
    · obtain ⟨c1, c2, c3, c4, c5⟩ := held_right P C K mids t a1 a2 f2 hm2
      obtain ⟨d4, _, _⟩ := update0_right P C K last (runPort0 P C K mids t) c3 c4
      obtain ⟨e1, e2⟩ := d4 (by rw [c5, a3]; exact hl)
      simp only [runPort0, runPort0_append]
      exact ⟨by rw [e1, c1, f1], e2⟩

/-- C2, evaluated: both switches pressed for three frames and then released. -/
theorem difficulty_debounce_flips_once_witness :
    ((runPort0 demoPlat demoCart demoCore
        (frameOf bothSwitchesPad false 0 0 ::
          ([frameOf bothSwitchesPad false 0 0, frameOf bothSwitchesPad false 0 0] ++
            [frameOf idlePad false 0 0])) armedEmu).keyboard_data 15
        = lnot (armedEmu.keyboard_data 15) ∧
      (runPort0 demoPlat demoCart demoCore
        (frameOf bothSwitchesPad false 0 0 ::
          ([frameOf bothSwitchesPad false 0 0, frameOf bothSwitchesPad false 0 0] ++
            [frameOf idlePad false 0 0])) armedEmu).left_difficulty_down = false) ∧
    ((runPort0 demoPlat demoCart demoCore
        (frameOf bothSwitchesPad false 0 0 ::
          ([frameOf bothSwitchesPad false 0 0, frameOf bothSwitchesPad false 0 0] ++
            [frameOf idlePad false 0 0])) armedEmu).keyboard_data 16
        = lnot (armedEmu.keyboard_data 16) ∧
      (runPort0 demoPlat demoCart demoCore
        (frameOf bothSwitchesPad false 0 0 ::
          ([frameOf bothSwitchesPad false 0 0, frameOf bothSwitchesPad false 0 0] ++
            [frameOf idlePad false 0 0])) armedEmu).right_difficulty_down = false) :=
  have h := difficulty_debounce_flips_once demoPlat demoCart demoCore armedEmu
    (frameOf bothSwitchesPad false 0 0)
    [frameOf bothSwitchesPad false 0 0, frameOf bothSwitchesPad false 0 0]
    (frameOf idlePad false 0 0) rfl rfl
  ⟨(h.1 rfl (by decide) (by intro m hm; simp at hm; subst hm; decide) (by decide)).2.2,
   (h.2 rfl (by decide) (by intro m hm; simp at hm; subst hm; decide) (by decide)).2.2⟩

/-- C3: settle-timer gating. While `diff_wait_count` is positive, a call of
`wii_atari_update_joystick`, for any port index and any raw input, leaves slots 15
and 16 of the control vector unchanged and does not touch `diff_display_count`. -/
theorem settle_timer_gates_switches (P : Plat) (C : Cart) (K : Core κ) (joyIndex : Nat)
    (inp : FrameInput) (s : Emu κ) (hw : 0 < s.diff_wait_count) :
    (wii_atari_update_joystick P C K joyIndex inp s).keyboard_data 15 = s.keyboard_data 15 ∧
    (wii_atari_update_joystick P C K joyIndex inp s).keyboard_data 16 = s.keyboard_data 16 ∧
    (wii_atari_update_joystick P C K joyIndex inp s).diff_display_count
      = s.diff_display_count := by
  by_cases h0 : joyIndex = 0
  · subst h0
    obtain ⟨_, _, a3, a4, _, _, a7⟩ := portBranch_frame P C 0 inp s s.lightgun_enabled
    rw [update_joystick_zero]
    have hw2 : (if s.lightgun_enabled then lightgunBranch P C (inp.pad 0).held s
        else joystickBranch P C 0 inp s).diff_wait_count ≠ 0 := by
      rw [a3]; exact ne_of_gt hw
    obtain ⟨b1, b2, b3⟩ := consoleBranch_wait P C K s.lightgun_enabled inp _ hw2
    exact ⟨by rw [b1]; exact a7 15 (by decide), by rw [b2]; exact a7 16 (by decide),
      by rw [b3]; exact a4⟩
  · rw [update_joystick_other P C K joyIndex h0]
    exact ⟨joystickBranch_kbd_high P C joyIndex inp s 15 (by decide),
      joystickBranch_kbd_high P C joyIndex inp s 16 (by decide), rfl⟩

/-- C3, evaluated: both switch buttons go down 45 frames before the timer expires. -/
theorem settle_timer_gates_switches_witness :
    (wii_atari_update_joystick demoPlat demoCart demoCore 0
        (frameOf bothSwitchesPad false 0 0) (demoEmu false true)).keyboard_data 15 = 1 ∧
    (wii_atari_update_joystick demoPlat demoCart demoCore 0
        (frameOf bothSwitchesPad false 0 0) (demoEmu false true)).keyboard_data 16 = 0 ∧
    (wii_atari_update_joystick demoPlat demoCart demoCore 0
        (frameOf bothSwitchesPad false 0 0) (demoEmu false true)).diff_display_count = 0 :=
  settle_timer_gates_switches demoPlat demoCart demoCore 0
    (frameOf bothSwitchesPad false 0 0) (demoEmu false true) (by decide)

/-- C4 (as stated, refuted): after the trigger has been seen released, a frame on
which A is held stores 0 in slot 3, not the held state 1. -/
theorem first_fire_then_mirror_fails :
    triggerHeld demoPlat ((frameOf idlePad false 0 0).pad 0).held = false ∧
    (runPort0 demoPlat demoCart demoCore
        [frameOf idlePad false 0 0, frameOf triggerPad false 0 0]
        (demoEmu true false)).keyboard_data 3
      ≠ b2u (triggerHeld demoPlat ((frameOf triggerPad false 0 0).pad 0).held) := by
  refine ⟨by decide, ?_⟩
  obtain ⟨a1, a2, _⟩ := update0_lightgun demoPlat demoCart demoCore
    (frameOf idlePad false 0 0) (demoEmu true false) rfl
  obtain ⟨_, _, b3, _⟩ := update0_lightgun demoPlat demoCart demoCore
    (frameOf triggerPad false 0 0) _ a1
  have hff : (wii_atari_update_joystick demoPlat demoCart demoCore 0
      (frameOf idlePad false 0 0) (demoEmu true false)).lightgun_first_fire = false := by
    rw [a2]; decide
  simp only [runPort0]
  rw [b3 3 (by decide), Kbd.set_apply, hff]
  decide

/-- C4 (amended): first-fire gating. With the light gun enabled and
`lightgun_first_fire` set, every port-0 frame on which A or B is held stores 1 in the
trigger slot (slot 3), and so does the first frame on which neither is held; on every
later frame slot 3 holds the negation of the held state: 1 when neither A nor B is
held, 0 when one of them is. -/
theorem first_fire_gating (P : Plat) (C : Cart) (K : Core κ) (s : Emu κ)
    (pre : List FrameInput)
    (hen : s.lightgun_enabled = true) (hff : s.lightgun_first_fire = true)
    (hpre : ∀ m ∈ pre, triggerHeld P (m.pad 0).held = true) :
    (∀ k, 0 < k → k ≤ pre.length →
      (runPort0 P C K (pre.take k) s).keyboard_data 3 = 1) ∧
    ∀ r : FrameInput, triggerHeld P (r.pad 0).held = false →
      (runPort0 P C K (pre ++ [r]) s).keyboard_data 3 = 1 ∧
      ∀ (post : List FrameInput) (x : FrameInput),
        (runPort0 P C K (pre ++ [r] ++ post ++ [x]) s).keyboard_data 3
          = b2u (!(triggerHeld P (x.pad 0).held)) := by
  constructor
  · intro k hk hkl
    obtain ⟨_, _, c3⟩ := first_fire_phase P C K (pre.take k) s hen hff
      (fun m hm => hpre m (List.mem_of_mem_take hm))
    rw [c3, if_neg]
    rw [List.length_take]
    omega
  · intro r hr
    obtain ⟨c1, c2, _⟩ := first_fire_phase P C K pre s hen hff hpre
    obtain ⟨a1, a2, a3, _⟩ := update0_lightgun P C K r (runPort0 P C K pre s) c1
    have hrel : (runPort0 P C K (pre ++ [r]) s).lightgun_first_fire = false := by
      rw [runPort0_append]; simp only [runPort0]; rw [a2, c2, hr]; rfl
    have hen2 : (runPort0 P C K (pre ++ [r]) s).lightgun_enabled = true := by
      rw [runPort0_append]; simp only [runPort0]; exact a1
    refine ⟨?_, ?_⟩
    · rw [runPort0_append]; simp only [runPort0]
      rw [a3 3 (by decide), Kbd.set_apply, c2]; rfl
    · intro post x
      obtain ⟨d1, d2⟩ := mirror_phase P C K post _ hen2 hrel
      obtain ⟨_, _, e3, _⟩ := update0_lightgun P C K x _ d1
      rw [runPort0_append, runPort0_append]
      simp only [runPort0]
      rw [e3 3 (by decide), Kbd.set_apply, d2, if_pos (by decide)]
      simp

/-- C4 (amended), evaluated: A held for two frames, released, then held again. -/
theorem first_fire_gating_witness :
    (runPort0 demoPlat demoCart demoCore
        ([frameOf triggerPad false 0 0, frameOf triggerPad false 0 0] ++
          [frameOf idlePad false 0 0]) (demoEmu true false)).keyboard_data 3 = 1 ∧
    (runPort0 demoPlat demoCart demoCore
        ([frameOf triggerPad false 0 0, frameOf triggerPad false 0 0] ++
          [frameOf idlePad false 0 0] ++ [] ++ [frameOf triggerPad false 0 0])
        (demoEmu true false)).keyboard_data 3 = 0 :=
  have h := (first_fire_gating demoPlat demoCart demoCore (demoEmu true false)
    [frameOf triggerPad false 0 0, frameOf triggerPad false 0 0] rfl rfl
    (by intro m hm; simp at hm; subst hm; decide)).2 (frameOf idlePad false 0 0) (by decide)
  ⟨h.1, h.2 [] (frameOf triggerPad false 0 0)⟩

/-- C5 (as stated, refuted): at pointer `x = 536` the exact value `c0` exceeds
`CYCLES_PER_SCANLINE`, yet the stored cycle is `10649 / 32768`, not
`c0 - CYCLES_PER_SCANLINE = 13 / 40`: the `float` quotient `318 / 640` and the
product with it are rounded. -/
theorem lightgun_cycle_not_exact :
    (demoPlat.HBLANK_CYCLES : ℚ) + (LG_CYCLES_INDENT : ℚ) +
        (edgeEmu.wii_ir_x : ℚ) * (LG_CYCLES_PER_SCANLINE : ℚ) / (demoPlat.WII_WIDTH : ℚ)
      > (demoPlat.CYCLES_PER_SCANLINE : ℚ) ∧
    (wii_atari_update_joystick demoPlat demoCart demoCore 0
        (frameOf idlePad true 536 100) edgeEmu).lightgun_cycle = 10649 / 32768 ∧
    (wii_atari_update_joystick demoPlat demoCart demoCore 0
        (frameOf idlePad true 536 100) edgeEmu).lightgun_cycle ≠
      (demoPlat.HBLANK_CYCLES : ℚ) + (LG_CYCLES_INDENT : ℚ) +
        (edgeEmu.wii_ir_x : ℚ) * (LG_CYCLES_PER_SCANLINE : ℚ) / (demoPlat.WII_WIDTH : ℚ)
      - (demoPlat.CYCLES_PER_SCANLINE : ℚ) := by
  obtain ⟨_, _, _, a4, _⟩ := update0_lightgun demoPlat demoCart demoCore
    (frameOf idlePad true 536 100) edgeEmu rfl
  have hx : edgeEmu.wii_ir_x = 536 := rfl
  rw [hx, lgCycle0_demo_edge, f32_cps_demo, if_pos (by norm_num), f32_wrap_edge] at a4
  refine ⟨?_, a4, ?_⟩
  · rw [hx]; norm_num [demoPlat, LG_CYCLES_INDENT, LG_CYCLES_PER_SCANLINE]
  · rw [a4, hx]; norm_num [demoPlat, LG_CYCLES_INDENT, LG_CYCLES_PER_SCANLINE]

/-- C5 (amended): light-gun cycle wrap, in single-precision arithmetic. In the
light-gun branch of the port-0 call let `c` be the `float` value computed at lines
528-532 (`lgCycle0`: each conversion and operation rounded to nearest) and `s0` the
scanline computed before the wrap test. If `c > CYCLES_PER_SCANLINE` the stored
scanline is `s0 + 1` and the stored cycle is the `float` difference
`c - CYCLES_PER_SCANLINE`, which is not negative. On a host with
`0 ≤ x < WII_WIDTH < 2 ^ 24`, `0 ≤ HBLANK_CYCLES + LG_CYCLES_INDENT`,
`CYCLES_PER_SCANLINE ≤ 2 ^ 23` and `HBLANK_CYCLES + LG_CYCLES_INDENT +
LG_CYCLES_PER_SCANLINE < 2 * CYCLES_PER_SCANLINE` that difference is exact, so the
stored cycle is `c - CYCLES_PER_SCANLINE`, and it lies in `[0, CYCLES_PER_SCANLINE)`. -/
theorem lightgun_cycle_wrap (P : Plat) (C : Cart) (K : Core κ) (inp : FrameInput)
    (s : Emu κ) (hen : s.lightgun_enabled = true)
    (hwrap : lgCycle0 P s.wii_ir_x > f32 (P.CYCLES_PER_SCANLINE : ℚ)) :
    (wii_atari_update_joystick P C K 0 inp s).lightgun_scanline
      = lgScanline0 P C s.wii_ir_y + 1 ∧
    (wii_atari_update_joystick P C K 0 inp s).lightgun_cycle
      = f32 (lgCycle0 P s.wii_ir_x - f32 (P.CYCLES_PER_SCANLINE : ℚ)) ∧
    0 ≤ (wii_atari_update_joystick P C K 0 inp s).lightgun_cycle ∧
    (0 ≤ s.wii_ir_x → s.wii_ir_x < P.WII_WIDTH → P.WII_WIDTH < 16777216 →
      0 ≤ P.HBLANK_CYCLES + LG_CYCLES_INDENT →
      P.CYCLES_PER_SCANLINE ≤ 8388608 →
      P.HBLANK_CYCLES + LG_CYCLES_INDENT + LG_CYCLES_PER_SCANLINE
        < 2 * P.CYCLES_PER_SCANLINE →
      (wii_atari_update_joystick P C K 0 inp s).lightgun_cycle
        = lgCycle0 P s.wii_ir_x - (P.CYCLES_PER_SCANLINE : ℚ) ∧
      (wii_atari_update_joystick P C K 0 inp s).lightgun_cycle
        < (P.CYCLES_PER_SCANLINE : ℚ)) := by
  obtain ⟨_, _, _, a4, a5⟩ := update0_lightgun P C K inp s hen
  rw [if_pos hwrap] at a4 a5
  refine ⟨a5, a4, ?_, ?_⟩
  · rw [a4]
    exact f32_nonneg _ (sub_nonneg.mpr hwrap.le)
  · intro hx0 hxW hW hA hK hS
    obtain ⟨e1, e2⟩ := lgCycle0_wrap_exact P s.wii_ir_x hx0 hxW hW hA hK hS hwrap
    rw [a4, e1]
    exact ⟨rfl, e2⟩

/-- C5 (amended), evaluated: on the sample host the pointer at `x = 536` wraps to
cycle `10649 / 32768` of the next scanline. -/
theorem lightgun_cycle_wrap_witness :
    (wii_atari_update_joystick demoPlat demoCart demoCore 0
        (frameOf idlePad true 536 100) edgeEmu).lightgun_scanline
      = lgScanline0 demoPlat demoCart 100 + 1 ∧
    (wii_atari_update_joystick demoPlat demoCart demoCore 0
        (frameOf idlePad true 536 100) edgeEmu).lightgun_cycle = 10649 / 32768 ∧
    (wii_atari_update_joystick demoPlat demoCart demoCore 0
        (frameOf idlePad true 536 100) edgeEmu).lightgun_cycle < 454 := by
  have hx : edgeEmu.wii_ir_x = 536 := rfl
  have h := lightgun_cycle_wrap demoPlat demoCart demoCore (frameOf idlePad true 536 100)
    edgeEmu rfl (by rw [hx, lgCycle0_demo_edge, f32_cps_demo]; norm_num)
  have hb := h.2.2.2 (by decide) (by decide) (by decide) (by decide) (by decide) (by decide)
  refine ⟨h.1, ?_, ?_⟩
  · rw [hb.1, hx, lgCycle0_demo_edge]
    norm_num [demoPlat]
  · have := hb.2
    norm_num [demoPlat] at this
    exact this

/-- C6: swap buttons. For a port on which the light gun is not active, the control
vector produced with `wii_swap_buttons` on is the one produced with it off with the
two fire slots of the port exchanged (4 and 5 for port 0, 10 and 11 otherwise);
every other slot, the two switch latches and the two switch timers are the same in
the two runs. -/
theorem swap_buttons_exchanges_fire_slots (P : Plat) (C : Cart) (K : Core κ)
    (joyIndex : Nat) (inp : FrameInput) (s : Emu κ)
    (hlg : (s.lightgun_enabled && joyIndex == 0) = false) :
    (wii_atari_update_joystick P C K joyIndex inp
        { s with wii_swap_buttons := true }).keyboard_data =
      Kbd.swapSlots
        (wii_atari_update_joystick P C K joyIndex inp
          { s with wii_swap_buttons := false }).keyboard_data
        (if joyIndex = 0 then 4 else 10) (if joyIndex = 0 then 5 else 11) ∧
    (∀ j : Fin 19, j ≠ (if joyIndex = 0 then 4 else 10) →
      j ≠ (if joyIndex = 0 then 5 else 11) →
      (wii_atari_update_joystick P C K joyIndex inp
          { s with wii_swap_buttons := true }).keyboard_data j =
        (wii_atari_update_joystick P C K joyIndex inp
          { s with wii_swap_buttons := false }).keyboard_data j) ∧
    (wii_atari_update_joystick P C K joyIndex inp
        { s with wii_swap_buttons := true }).left_difficulty_down =
      (wii_atari_update_joystick P C K joyIndex inp
        { s with wii_swap_buttons := false }).left_difficulty_down ∧
    (wii_atari_update_joystick P C K joyIndex inp
        { s with wii_swap_buttons := true }).right_difficulty_down =
      (wii_atari_update_joystick P C K joyIndex inp
        { s with wii_swap_buttons := false }).right_difficulty_down ∧
    (wii_atari_update_joystick P C K joyIndex inp
        { s with wii_swap_buttons := true }).diff_wait_count =
      (wii_atari_update_joystick P C K joyIndex inp
        { s with wii_swap_buttons := false }).diff_wait_count ∧
    (wii_atari_update_joystick P C K joyIndex inp
        { s with wii_swap_buttons := true }).diff_display_count =
      (wii_atari_update_joystick P C K joyIndex inp
        { s with wii_swap_buttons := false }).diff_display_count := by
  set sOn : Emu κ := { s with wii_swap_buttons := true } with hOn
  set sOff : Emu κ := { s with wii_swap_buttons := false } with hOff
  have hlgOn : (sOn.lightgun_enabled && joyIndex == 0) = false := hlg
  have hlgOff : (sOff.lightgun_enabled && joyIndex == 0) = false := hlg
  have hsame : sameConsole (joystickBranch P C joyIndex inp sOn)
      (joystickBranch P C joyIndex inp sOff) := by
    refine ⟨fun j hj => ?_, rfl, rfl, rfl, rfl, rfl⟩
    rw [joystickBranch_kbd_high P C joyIndex inp sOn j hj,
      joystickBranch_kbd_high P C joyIndex inp sOff j hj]
  have hjb := joystickBranch_swap P C joyIndex inp s
  have hvec : (wii_atari_update_joystick P C K joyIndex inp sOn).keyboard_data =
      Kbd.swapSlots (wii_atari_update_joystick P C K joyIndex inp sOff).keyboard_data
        (if joyIndex = 0 then 4 else 10) (if joyIndex = 0 then 5 else 11) := by
    funext j
    by_cases hj : j.val < 12
    · rw [update_joystick_plain_kbd P C K joyIndex inp sOn hlgOn j hj, hjb j]
      unfold Kbd.swapSlots
      have ha : ((if joyIndex = 0 then 4 else 10 : Fin 19)).val < 12 := by
        split <;> decide
      have hb : ((if joyIndex = 0 then 5 else 11 : Fin 19)).val < 12 := by
        split <;> decide
      rw [update_joystick_plain_kbd P C K joyIndex inp sOff hlgOff _ ha,
        update_joystick_plain_kbd P C K joyIndex inp sOff hlgOff _ hb,
        update_joystick_plain_kbd P C K joyIndex inp sOff hlgOff j hj]
    · have hj2 : 12 ≤ j.val := not_lt.mp hj
      have hne1 : j ≠ (if joyIndex = 0 then 4 else 10 : Fin 19) := by
        intro h; rw [h] at hj2; revert hj2; split <;> decide
      have hne2 : j ≠ (if joyIndex = 0 then 5 else 11 : Fin 19) := by
        intro h; rw [h] at hj2; revert hj2; split <;> decide
      unfold Kbd.swapSlots
      rw [if_neg hne1, if_neg hne2,
        update_joystick_plain P C K joyIndex inp sOn hlgOn,
        update_joystick_plain P C K joyIndex inp sOff hlgOff]
      split
      · exact (consoleBranch_congr P C K false inp _ _ hsame).1 j hj2
      · exact hsame.1 j hj2
  have hsw : sameConsole (wii_atari_update_joystick P C K joyIndex inp sOn)
      (wii_atari_update_joystick P C K joyIndex inp sOff) := by
    rw [update_joystick_plain P C K joyIndex inp sOn hlgOn,
      update_joystick_plain P C K joyIndex inp sOff hlgOff]
    split
    · exact consoleBranch_congr P C K false inp _ _ hsame
    · exact hsame
  obtain ⟨_, w2, w3, w4, w5, _⟩ := hsw
  refine ⟨hvec, ?_, w2, w3, w4, w5⟩
  intro j h1 h2
  rw [hvec]
  unfold Kbd.swapSlots
  rw [if_neg h1, if_neg h2]

/-- C6, evaluated: port 0 with only the first fire button held. -/
theorem swap_buttons_exchanges_fire_slots_witness :
    (wii_atari_update_joystick demoPlat demoCart demoCore 0 (frameOf firePad false 0 0)
        { demoEmu false false with wii_swap_buttons := true }).keyboard_data =
      Kbd.swapSlots
        (wii_atari_update_joystick demoPlat demoCart demoCore 0 (frameOf firePad false 0 0)
          { demoEmu false false with wii_swap_buttons := false }).keyboard_data
        (if 0 = 0 then 4 else 10) (if 0 = 0 then 5 else 11) :=
  (swap_buttons_exchanges_fire_slots demoPlat demoCart demoCore 0
    (frameOf firePad false 0 0) (demoEmu false false) rfl).1

/-- C7 (evaluation of the code): with `wii_swap_buttons` off and no light gun,
holding only the first fire button on port 0 sets slot 5 and leaves slot 4 clear. -/
theorem fire_button_sets_slot_five :
    (demoEmu false false).wii_swap_buttons = false ∧
    fireBit demoPlat firePad = true ∧ fire2Bit demoPlat firePad = false ∧
    (wii_atari_update_joystick demoPlat demoCart demoCore 0 (frameOf firePad false 0 0)
        (demoEmu false false)).keyboard_data 4 = 0 ∧
    (wii_atari_update_joystick demoPlat demoCart demoCore 0 (frameOf firePad false 0 0)
        (demoEmu false false)).keyboard_data 5 = 1 := by
  refine ⟨rfl, by decide, by decide, ?_, ?_⟩
  · rw [update_joystick_plain_kbd demoPlat demoCart demoCore 0 (frameOf firePad false 0 0)
        (demoEmu false false) rfl 4 (by decide),
      joystickBranch_kbd]
    decide
  · rw [update_joystick_plain_kbd demoPlat demoCart demoCore 0 (frameOf firePad false 0 0)
        (demoEmu false false) rfl 5 (by decide),
      joystickBranch_kbd]
    decide

/-- C8 (as stated, refuted): on the first frame after a load, with the light gun
enabled and the pointer reported invalid, `wii_atari_update_keys` replaces the
stored cycle 0 by the cycle computed from the sentinel `x = -100`. -/
theorem invalid_pointer_changes_cycle :
    (demoEmu true false).lightgun_enabled = true ∧
    (frameOf idlePad false 0 0).irValid = false ∧
    (wii_atari_update_keys demoPlat demoCart demoCore (frameOf idlePad false 0 0)
        (demoEmu true false)).lightgun_cycle ≠ (demoEmu true false).lightgun_cycle := by
  refine ⟨rfl, rfl, ?_⟩
  obtain ⟨a, _⟩ := update_keys_coords demoPlat demoCart demoCore (frameOf idlePad false 0 0)
    (demoEmu true false) rfl
  have hv : (frameOf idlePad false 0 0).irValid = false := rfl
  rw [hv] at a
  simp only [Bool.false_eq_true, if_false] at a
  rw [lgCycle0_demo_sentinel, f32_cps_demo, if_neg (by norm_num)] at a
  rw [a]
  have h0 : (demoEmu true false).lightgun_cycle = 0 := rfl
  rw [h0]
  norm_num

/-- C8 (amended): when the light gun is enabled and the pointer is reported
invalid, `wii_atari_update_keys` recomputes the light-gun coordinate from the
sentinel position `(-100, -100)`: whatever they were before, `lightgun_cycle` and
`lightgun_scanline` afterwards are the values the mapper computes for `x = -100`
and `y = -100` (with the wrap applied when the cycle exceeds a scanline). -/
theorem invalid_pointer_uses_sentinel (P : Plat) (C : Cart) (K : Core κ)
    (inp : FrameInput) (s : Emu κ)
    (hen : s.lightgun_enabled = true) (hinv : inp.irValid = false) :
    (wii_atari_update_keys P C K inp s).lightgun_cycle =
        (if lgCycle0 P (-100) > f32 (P.CYCLES_PER_SCANLINE : ℚ)
          then f32 (lgCycle0 P (-100) - f32 (P.CYCLES_PER_SCANLINE : ℚ))
          else lgCycle0 P (-100)) ∧
    (wii_atari_update_keys P C K inp s).lightgun_scanline =
        (if lgCycle0 P (-100) > f32 (P.CYCLES_PER_SCANLINE : ℚ)
          then lgScanline0 P C (-100) + 1
          else lgScanline0 P C (-100)) := by
  obtain ⟨a, b⟩ := update_keys_coords P C K inp s hen
  rw [hinv] at a b
  simp only [Bool.false_eq_true, if_false] at a b
  exact ⟨a, b⟩

/-- C8 (amended), evaluated: the sentinel maps to cycle `2213 / 16`. -/
theorem invalid_pointer_uses_sentinel_witness :
    (wii_atari_update_keys demoPlat demoCart demoCore (frameOf idlePad false 0 0)
        aimedEmu).lightgun_cycle = 2213 / 16 := by
  have h := (invalid_pointer_uses_sentinel demoPlat demoCart demoCore
    (frameOf idlePad false 0 0) aimedEmu rfl rfl).1
  rw [h, lgCycle0_demo_sentinel, f32_cps_demo, if_neg (by norm_num)]

/-- C9 (as stated, refuted): with the light gun enabled, the first port-0 call
after a load changes the directional slot 3 from 0 to 1. -/
theorem lightgun_changes_slot_three :
    (demoEmu true false).lightgun_enabled = true ∧
    (wii_atari_update_joystick demoPlat demoCart demoCore 0 (frameOf idlePad false 0 0)
        (demoEmu true false)).keyboard_data 3 ≠ (demoEmu true false).keyboard_data 3 := by
  refine ⟨rfl, ?_⟩
  obtain ⟨_, _, a3, _⟩ := update0_lightgun demoPlat demoCart demoCore
    (frameOf idlePad false 0 0) (demoEmu true false) rfl
  rw [a3 3 (by decide), Kbd.set_apply]
  decide

/-- C9 (amended): light-gun suppression. With the light gun enabled, the port-0
call changes at most one of slots 0-5, namely slot 3 (Up), which receives the
trigger bit: 1 while `lightgun_first_fire` is set, otherwise the negation of the
held state of A or B. Slots 0, 1, 2 and the fire slots 4 and 5 are left unchanged. -/
theorem lightgun_suppression (P : Plat) (C : Cart) (K : Core κ) (inp : FrameInput)
    (s : Emu κ) (hen : s.lightgun_enabled = true) :
    (wii_atari_update_joystick P C K 0 inp s).keyboard_data 3 =
      (if s.lightgun_first_fire then 1 else b2u (!(triggerHeld P (inp.pad 0).held))) ∧
    (wii_atari_update_joystick P C K 0 inp s).keyboard_data 0 = s.keyboard_data 0 ∧
    (wii_atari_update_joystick P C K 0 inp s).keyboard_data 1 = s.keyboard_data 1 ∧
    (wii_atari_update_joystick P C K 0 inp s).keyboard_data 2 = s.keyboard_data 2 ∧
    (wii_atari_update_joystick P C K 0 inp s).keyboard_data 4 = s.keyboard_data 4 ∧
    (wii_atari_update_joystick P C K 0 inp s).keyboard_data 5 = s.keyboard_data 5 := by
  obtain ⟨_, _, a3, _⟩ := update0_lightgun P C K inp s hen
  refine ⟨?_, ?_, ?_, ?_, ?_, ?_⟩
  · rw [a3 3 (by decide), Kbd.set_apply, if_pos (by decide)]
  · rw [a3 0 (by decide), Kbd.set_apply, if_neg (by decide)]
  · rw [a3 1 (by decide), Kbd.set_apply, if_neg (by decide)]
  · rw [a3 2 (by decide), Kbd.set_apply, if_neg (by decide)]
  · rw [a3 4 (by decide), Kbd.set_apply, if_neg (by decide)]
  · rw [a3 5 (by decide), Kbd.set_apply, if_neg (by decide)]

/-- C9 (amended), evaluated: after the first release, holding A clears slot 3 and
leaves slots 4 and 5 as they were. -/
theorem lightgun_suppression_witness :
    (wii_atari_update_joystick demoPlat demoCart demoCore 0 (frameOf triggerPad false 0 0)
        { demoEmu true false with lightgun_first_fire := false }).keyboard_data 3 = 0 ∧
    (wii_atari_update_joystick demoPlat demoCart demoCore 0 (frameOf triggerPad false 0 0)
        { demoEmu true false with lightgun_first_fire := false }).keyboard_data 4 = 0 ∧
    (wii_atari_update_joystick demoPlat demoCart demoCore 0 (frameOf triggerPad false 0 0)
        { demoEmu true false with lightgun_first_fire := false }).keyboard_data 5 = 0 :=
  have h := lightgun_suppression demoPlat demoCart demoCore (frameOf triggerPad false 0 0)
    { demoEmu true false with lightgun_first_fire := false } rfl
  ⟨h.1, h.2.2.2.2.1, h.2.2.2.2.2⟩

/-- C10: fast-forward is silent and input-preserving. For every `N ≥ 0`, if the
core is active and not paused before each of the frames of the run, then
`wii_atari_main_loop(N)` returns (any fuel of at least `N + 1` loop tests suffices),
`wii_atari_update_keys` has not been called (the poll counter is unchanged and no
pad scan was recorded), `wii_sdl_flip` has not been called, and `keyboard_data` at
return equals its value at entry. -/
theorem fast_forward_silent (P : Plat) (C : Cart) (K : Core κ) (inp : Nat → FrameInput)
    (N fuel : Nat) (s : Emu κ) (hfuel : N + 1 ≤ fuel)
    (hrun : ∀ i, i ≤ N →
      K.prosystem_paused (coreAfter K s.keyboard_data i s.core) = false ∧
      K.prosystem_active (coreAfter K s.keyboard_data i s.core) = true) :
    ∃ s1, wii_atari_main_loop P C K inp fuel (N : Int) s = some s1 ∧
      s1.keyboard_data = s.keyboard_data ∧
      s1.polls = s.polls ∧
      ∃ evs, s1.trace = s.trace ++ evs ∧ Event.scanPads ∉ evs ∧ Event.flip ∉ evs := by
  obtain ⟨extra, rfl⟩ := Nat.exists_eq_add_of_le hfuel
  set s0 : Emu κ :=
    { s with
      lightgun_first_fire := true
      lightgun_enabled := C.cartridge_lightgun
      trace := s.trace ++ [Event.timerReset] } with hs0
  obtain ⟨s1, h1, h2, h3, _, evs, h5, _, h7⟩ := mainLoopBody_fast P C K inp N extra s0 hrun
  refine ⟨s1, h1, h2, h3, [Event.timerReset] ++ evs, ?_, ?_, ?_⟩
  · rw [h5, hs0]; simp
  · intro hmem
    simp only [List.singleton_append, List.mem_cons] at hmem
    rcases hmem with hmem | hmem
    · exact absurd hmem (by decide)
    · rcases h7 _ hmem with h | h
      · exact absurd h (by decide)
      · exact absurd h (by decide)
  · intro hmem
    simp only [List.singleton_append, List.mem_cons] at hmem
    rcases hmem with hmem | hmem
    · exact absurd hmem (by decide)
    · rcases h7 _ hmem with h | h
      · exact absurd h (by decide)
      · exact absurd h (by decide)

/-- C10, evaluated: three fast-forward frames on a running core. -/
theorem fast_forward_silent_witness :
    ∃ s1, wii_atari_main_loop demoPlat demoCart demoCore (fun _ => frameOf idlePad false 0 0)
        4 ((3 : Nat) : Int) (demoEmu false false) = some s1 ∧
      s1.keyboard_data = (demoEmu false false).keyboard_data ∧
      s1.polls = (demoEmu false false).polls ∧
      ∃ evs, s1.trace = (demoEmu false false).trace ++ evs ∧
        Event.scanPads ∉ evs ∧ Event.flip ∉ evs :=
  fast_forward_silent demoPlat demoCart demoCore (fun _ => frameOf idlePad false 0 0)
    3 4 (demoEmu false false) (by decide)
    (by
      intro i _
      have h : ∀ n (k : Bool × Bool),
          coreAfter demoCore (demoEmu false false).keyboard_data n k = k := by
        intro n
        induction n with
        | zero => intro k; rfl
        | succ n ih => intro k; exact ih _
      rw [h]
      exact ⟨rfl, rfl⟩)

/-- C11 (as stated, refuted): at 60 Hz `wii_reset_keyboard_data` leaves the settle
timer at 45, not at 0. -/
theorem reset_arms_settle_timer :
    (wii_reset_keyboard_data demoCart (demoEmu false true)).diff_wait_count = 45 ∧
    (wii_reset_keyboard_data demoCart (demoEmu false true)).diff_wait_count ≠ 0 := by
  have h : (wii_reset_keyboard_data demoCart (demoEmu false true)).diff_wait_count
      = cTrunc (((60 : Nat) : ℚ) * (3 / 4)) := rfl
  rw [h, cTrunc_natCast_mul]
  exact ⟨by decide, by decide⟩

/-- C11 (amended): reset state. For every prior state and every frequency,
`wii_reset_keyboard_data` leaves slot 15 at 1 (left switch off), slot 16 at 0 (right
switch on), every other slot at 0 and `diff_display_count` at 0, and it arms the
settle timer: `diff_wait_count` is `prosystem_frequency * 0.75` truncated to an
integer, the integer quotient of `3 * prosystem_frequency` by 4. -/
theorem reset_state (C : Cart) (s : Emu κ) :
    (wii_reset_keyboard_data C s).keyboard_data 15 = 1 ∧
    (wii_reset_keyboard_data C s).keyboard_data 16 = 0 ∧
    (∀ j : Fin 19, j ≠ 15 → (wii_reset_keyboard_data C s).keyboard_data j = 0) ∧
    (wii_reset_keyboard_data C s).diff_display_count = 0 ∧
    (wii_reset_keyboard_data C s).diff_wait_count
      = ((3 * C.prosystem_frequency / 4 : Nat) : Int) := by
  refine ⟨rfl, rfl, ?_, rfl, ?_⟩
  · intro j hj
    have hv : j.val ≠ 15 := fun h => hj (Fin.ext h)
    show Kbd.set (Kbd.set (fun _ => 0) 15 1) 16 0 j = 0
    rw [Kbd.set_apply]
    split
    · rfl
    · rw [Kbd.set_apply, if_neg hv]
  · show cTrunc ((C.prosystem_frequency : ℚ) * (3 / 4)) = _
    exact cTrunc_natCast_mul _

/-- C12 (as stated, refuted): `wii_atari_main_loop(0)` on a running core returns
after one emulation step without any call of `cartridge_SaveHighScoreSram`. -/
theorem test_frame_run_skips_save :
    (wii_atari_main_loop demoPlat demoCart demoCore (fun _ => frameOf idlePad false 0 0)
        1 0 (demoEmu false false)).map
      (fun s => (s.trace.count Event.executeFrame, s.trace.count Event.saveHighScoreSram))
      = some (1, 0) := by
  decide

/-- C12 (amended): persistence on exit. Every run of `wii_atari_main_loop` that
returns through the loop condition (the core is paused) has called
`cartridge_SaveHighScoreSram` exactly once, as its last call, after the last
emulation step; every returning run with negative `testframes` is of this kind. A
run with `testframes ≥ 0` may instead return through line 808, right after an
emulation step, and such a run has not called `cartridge_SaveHighScoreSram`. -/
theorem save_on_loop_exit (P : Plat) (C : Cart) (K : Core κ) (inp : Nat → FrameInput)
    (fuel : Nat) (testframes : Int) (s s1 : Emu κ)
    (hret : wii_atari_main_loop P C K inp fuel testframes s = some s1) :
    ((∃ pre, s1.trace = s.trace ++ pre ++ [Event.saveHighScoreSram] ∧
        Event.saveHighScoreSram ∉ pre ∧ K.prosystem_paused s1.core = true) ∨
      (0 ≤ testframes ∧ ∃ pre, s1.trace = s.trace ++ pre ∧
        Event.saveHighScoreSram ∉ pre ∧ Event.executeFrame ∈ pre)) ∧
    (testframes < 0 →
      ∃ pre, s1.trace = s.trace ++ pre ++ [Event.saveHighScoreSram] ∧
        Event.saveHighScoreSram ∉ pre) := by
  set s0 : Emu κ :=
    { s with
      lightgun_first_fire := true
      lightgun_enabled := C.cartridge_lightgun
      trace := s.trace ++ [Event.timerReset] } with hs0
  have hbody : mainLoopBody P C K inp fuel testframes s0 = some s1 := hret
  have hshape : exitShape K testframes s s1 :=
    exitShape_extend K testframes testframes id s s0 s1 [Event.timerReset] rfl (by decide)
      (mainLoopBody_exit P C K inp fuel testframes s0 s1 hbody)
  refine ⟨hshape, ?_⟩
  intro hneg
  rcases hshape with ⟨pre, h1, h2, _⟩ | ⟨h0, _⟩
  · exact ⟨pre, h1, h2⟩
  · exact absurd h0 (not_le.mpr hneg)

/-- C12 (amended), evaluated: an interactive run that Home ends at the third poll
returns with one call of `cartridge_SaveHighScoreSram`, made last. -/
theorem save_on_loop_exit_witness :
    ∃ s1, wii_atari_main_loop demoPlat plainCart demoCore homeAtThirdPoll 4 (-1)
        (demoEmu false false) = some s1 ∧
      ∃ pre, s1.trace = (demoEmu false false).trace ++ pre ++ [Event.saveHighScoreSram] ∧
        Event.saveHighScoreSram ∉ pre :=
  have hsome : (wii_atari_main_loop demoPlat plainCart demoCore homeAtThirdPoll 4 (-1)
      (demoEmu false false)).isSome = true := by decide
  have hret : wii_atari_main_loop demoPlat plainCart demoCore homeAtThirdPoll 4 (-1)
      (demoEmu false false) = some (Option.get _ hsome) := (Option.some_get hsome).symm
  ⟨_, hret, (save_on_loop_exit demoPlat plainCart demoCore homeAtThirdPoll 4 (-1)
    (demoEmu false false) _ hret).2 (by decide)⟩

end Wii7800
